import Mathlib

set_option maxRecDepth 4000
set_option maxHeartbeats 1000000

/-!
Shallow embedding of the notion-auto-migration-server core:
the job orchestrator (src/app/jobs.py), the snapshot engine
(src/app/dump_service.py), the materialization engine
(src/app/migrate_service.py) and the manifest asset-map builder
(src/app/routers/api.py), followed by theorems settling the spec claims.

External collaborators (the remote API, the filesystem, the clock, the
cancel event) are modelled as oracles: each remote call is a function of
the number of remote calls made so far, so that a callback sampled at a
checkpoint can change over the run, exactly as the shared cancel event
does.  Pure data (ids, block kinds, captions) is carried verbatim;
payload fields the engine never reads are opaque and omitted.
-/

/-! ## Job orchestrator (src/app/jobs.py) -/

/-- Values of the Job.status field (jobs.py 17). -/
inductive JStatus where
  | queued
  | running
  | done
  | error
  | canceled
deriving DecidableEq

/-- One record of the JobManager job table: the fields of Job
(jobs.py 13-23) that the orchestrator reads or writes.  params,
created_at and the task handle are never branched on and are omitted;
the asyncio cancel event is the boolean cancelFlag. -/
structure MJob where
  id : Nat
  jtype : String
  status : JStatus
  cancelFlag : Bool
  message : String
deriving DecidableEq

/-- JobManager._count_active (jobs.py 83-85): jobs of the given type in
status queued or running. -/
def countActive (jobs : List MJob) (typ : String) : Nat :=
  (jobs.filter (fun j => j.jtype == typ && (j.status == .queued || j.status == .running))).length

/-- The limit chosen by JobManager._ensure_capacity (jobs.py 88):
max_dump when the argument string is "dump", max_migrate otherwise. -/
def capacityLimit (maxDump maxMigrate : Nat) (typ : String) : Nat :=
  if typ == "dump" then maxDump else maxMigrate

/-- JobManager._ensure_capacity (jobs.py 87-90) succeeds (does not raise)
iff the active count of the given type is below the chosen limit. -/
def ensureCapacityOk (maxDump maxMigrate : Nat) (jobs : List MJob) (typ : String) : Bool :=
  decide (countActive jobs typ < capacityLimit maxDump maxMigrate typ)

/-- JobManager.enqueue_dump (jobs.py 162-166): capacity is checked for
the string "dump" and a job of type "dump" is inserted.  none models the
RuntimeError raised at capacity. -/
def enqueueDump (maxDump maxMigrate : Nat) (jobs : List MJob) (nid : Nat) : Option (List MJob) :=
  if ensureCapacityOk maxDump maxMigrate jobs "dump" then
    some (jobs ++ [⟨nid, "dump", .queued, false, ""⟩])
  else none

/-- JobManager.enqueue_dump_database (jobs.py 214-218): capacity is
checked for the string "dump" (line 215) but the inserted job has type
"dump_database" (line 216). -/
def enqueueDumpDatabase (maxDump maxMigrate : Nat) (jobs : List MJob) (nid : Nat) : Option (List MJob) :=
  if ensureCapacityOk maxDump maxMigrate jobs "dump" then
    some (jobs ++ [⟨nid, "dump_database", .queued, false, ""⟩])
  else none

/-- JobManager.enqueue_migrate (jobs.py 269-273): capacity is checked
for "migrate" and a job of type "migrate" is inserted. -/
def enqueueMigrate (maxDump maxMigrate : Nat) (jobs : List MJob) (nid : Nat) : Option (List MJob) :=
  if ensureCapacityOk maxDump maxMigrate jobs "migrate" then
    some (jobs ++ [⟨nid, "migrate", .queued, false, ""⟩])
  else none

/-- Dictionary lookup self._jobs.get(job_id); ids are unique, so the
first match is the match. -/
def findJob (jobs : List MJob) (jid : Nat) : Option MJob :=
  jobs.find? (fun j => j.id == jid)

/-- The terminal status test used at jobs.py 100 and 150. -/
def isTerminal (s : JStatus) : Bool :=
  s == .done || s == .error || s == .canceled

/-- In-place mutation of the job object found in the table. -/
def updateJob (jobs : List MJob) (jid : Nat) (f : MJob → MJob) : List MJob :=
  jobs.map (fun j => if j.id == jid then f j else j)

/-- JobManager.cancel (jobs.py 95-113).  Unknown id: false.  Terminal
job: true with no change.  Otherwise the cancel event is set and the
status and message are overwritten before returning true.  The SSE
broadcast and the history write are external I/O and not modelled. -/
def cancelJob (jobs : List MJob) (jid : Nat) : Bool × List MJob :=
  match findJob jobs jid with
  | none => (false, jobs)
  | some j =>
    if isTerminal j.status then (true, jobs)
    else
      (true, updateJob jobs jid
        (fun x => { x with cancelFlag := true, status := .canceled, message := "Cancelled" }))

/-- JobManager.remove (jobs.py 115-125): queued or running jobs cannot
be removed; otherwise the job is popped from the table. -/
def removeJob (jobs : List MJob) (jid : Nat) : Bool × List MJob :=
  match findJob jobs jid with
  | none => (false, jobs)
  | some j =>
    if j.status == .queued || j.status == .running then (false, jobs)
    else (true, jobs.filter (fun x => !(x.id == jid)))

/-- JobManager._auto_cleanup_job (jobs.py 148-157): a terminal job is
popped from the table after the grace sleep. -/
def autoCleanupJob (jobs : List MJob) (jid : Nat) : List MJob :=
  match findJob jobs jid with
  | some j => if isTerminal j.status then jobs.filter (fun x => !(x.id == jid)) else jobs
  | none => jobs

/-! ### The runner of a single job (jobs.py 176-211 / 284-343)
interleaved with the cancel entry point.  The program counter records
how far the worker coroutine has run: it has not started, it has passed
its prologue and is executing the service call, or it has returned. -/

/-- Worker progress of one job. -/
inductive RPC where
  | notStarted
  | started
  | finished
deriving DecidableEq

/-- The state of one job as seen by the orchestrator and its worker. -/
structure RState where
  status : JStatus
  flag : Bool
  pc : RPC
deriving DecidableEq

/-- Interleaved atomic actions on one job.  cancelReq is the body of
JobManager.cancel for this job; workerStart is the runner prologue
(jobs.py 177-181: return early when the cancel event is already set,
otherwise set status running); the finish actions are the runner
epilogue for a service call that returned (193-200), raised
CancelledError (201-205) or raised another exception (206-209). -/
inductive RAct where
  | cancelReq
  | workerStart
  | finishOk
  | finishErr
  | finishCancelled
deriving DecidableEq

/-- The job as created by an enqueue operation. -/
def rInit : RState := ⟨.queued, false, .notStarted⟩

/-- One atomic step of the job lifecycle. -/
def rstep (s : RState) : RAct → RState
  | .cancelReq =>
    if isTerminal s.status then s
    else { s with flag := true, status := .canceled }
  | .workerStart =>
    match s.pc with
    | .notStarted =>
      if s.flag then { s with pc := .finished }
      else { s with status := .running, pc := .started }
    | _ => s
  | .finishOk =>
    match s.pc with
    | .started =>
      if s.flag then
        (if s.status == .canceled then { s with pc := .finished }
         else { s with status := .canceled, pc := .finished })
      else { s with status := .done, pc := .finished }
    | _ => s
  | .finishErr =>
    match s.pc with
    | .started => { s with status := .error, pc := .finished }
    | _ => s
  | .finishCancelled =>
    match s.pc with
    | .started =>
      if s.status == .canceled then { s with pc := .finished }
      else { s with status := .canceled, pc := .finished }
    | _ => s

/-- Run a sequence of interleaved actions. -/
def runActs (s : RState) (acts : List RAct) : RState :=
  acts.foldl rstep s

/-! ## Snapshot engine (src/app/dump_service.py) -/

/-- ASSET_TYPES (dump_service.py 16) and ASSET_BLOCK_TYPES
(migrate_service.py 15): the same six block kinds. -/
def assetTypes : List String := ["image", "file", "pdf", "video", "audio", "external"]

/-- One item of a blocks.children.list response: the fields the engine
reads.  fileUrl is the url of data.get("file") or data.get("external")
when present; caption and pageTitle are the parts of the kind-specific
payload later read back by the materializer; everything else of the
payload is opaque to the engine and omitted. -/
structure RawBlock where
  id : String
  btype : String
  hasChildren : Bool
  fileUrl : Option String
  caption : List String
  pageTitle : Option String
deriving DecidableEq

/-- A node of tree.json: id, type, has_children, the payload parts the
engine reads, and the ordered children list (dump_service.py 98-99). -/
inductive SNode where
  | mk : String → String → Bool → List String → Option String → List SNode → SNode

def SNode.id : SNode → String
  | .mk i _ _ _ _ _ => i

def SNode.btype : SNode → String
  | .mk _ t _ _ _ _ => t

def SNode.hasChildren : SNode → Bool
  | .mk _ _ h _ _ _ => h

def SNode.caption : SNode → List String
  | .mk _ _ _ c _ _ => c

def SNode.pageTitle : SNode → Option String
  | .mk _ _ _ _ p _ => p

def SNode.children : SNode → List SNode
  | .mk _ _ _ _ _ cs => cs

/-- One manifest file record (dump_service.py 115). -/
structure FileRec where
  url : String
  path : String
  original : String
  saved : String
deriving DecidableEq

/-- One manifest node (dump_service.py 100). -/
structure ManNode where
  id : String
  btype : String
  hasChildren : Bool
  files : List FileRec
deriving DecidableEq

/-- The url with its query string stripped (dump_service.py 107). -/
def urlPure (url : String) : String :=
  (url.splitOn "?").headD url

/-- Basename of the query-stripped url: the text after the last slash. -/
def urlBase (url : String) : String :=
  ((urlPure url).splitOn "/").getLastD ""

/-- Extension of the basename: the last dot suffix (the corner cases of
os.path.splitext on dotfiles are not exercised by the engine). -/
def urlExt (url : String) : String :=
  let parts := (urlBase url).splitOn "."
  if parts.length ≤ 1 then "" else "." ++ parts.getLastD ""

/-- The file record built at dump_service.py 104-115: original defaults
to "file.bin", the extension to ".bin", the saved name is the block id
plus the extension, and the recorded path is relative to the dump
root. -/
def mkFileRec (relDir : String) (bid : String) (url : String) : FileRec :=
  let original := if urlBase url = "" then "file.bin" else urlBase url
  let ext := if urlExt url = "" then ".bin" else urlExt url
  let saved := bid ++ ext
  { url := url, path := relDir ++ "/" ++ saved, original := original, saved := saved }

/-- The downloadable url of a block: present only when the payload has a
file or external object with a truthy url (dump_service.py 104-105). -/
def blockUrl (b : RawBlock) : Option String :=
  match b.fileUrl with
  | some u => if u = "" then none else some u
  | none => none

/-- External collaborators of a capture run.  pages gives, per parent
id, the successive children.list responses (the last response has
has_more false); queryPages gives the successive databases.query
responses as lists of entry ids.  Time is the number of remote calls
made so far; the job cancel event is set once and never cleared, so the
cancel callback reports true exactly from time cancelFrom onward.
downloadOk tells whether the scheduled download of a url succeeds;
relDir is the capture directory name. -/
structure DumpEnv where
  pages : String → List (List RawBlock)
  queryPages : List (List String)
  cancelFrom : Nat
  downloadOk : String → Bool
  relDir : String

/-- Observation state threaded through a capture: the remote-call clock,
the log of children.list calls (parent, time of call), and the global
manifest node list of a page capture. -/
structure DSt where
  fc : Nat
  fetchLog : List (String × Nat)
  manifest : List ManNode
deriving DecidableEq

/-- Abort reasons of a capture: the CancelledError raised by
check_cancel, a download failure re-raised by the gather, or fuel
exhaustion (an artifact of the embedding for unboundedly deep input). -/
inductive DErr where
  | cancelled
  | downloadFailed
  | fuelOut
deriving DecidableEq

/-- Control positions of walk_children: one call of walk_children, its
while-pagination loop over the remaining responses, and the for-loop
over the blocks of one response. -/
inductive DCall where
  | walk (parent : String)
  | pageLoop (parent : String) (rest : List (List RawBlock))
  | blockLoop (parent : String) (blocks : List RawBlock)

/-- The children.list API always returns at least one (possibly empty)
page; the while loop runs at least once. -/
def pagesOf (env : DumpEnv) (p : String) : List (List RawBlock) :=
  match env.pages p with
  | [] => [[]]
  | l => l

/-- The value of the cancel callback at remote-call time fc. -/
def cancelNow (env : DumpEnv) (fc : Nat) : Bool :=
  decide (env.cancelFrom ≤ fc)

/-- Interpreter for walk_children (dump_service.py 88-129).  Returns the
snapshot children in response order together with the urls scheduled for
download by this invocation; the threaded state carries the clock, the
fetch log and the global manifest.  check_cancel runs once per
pagination round before the fetch (93-95); each block appends its
manifest node after its subtree has been walked (117-121); the
per-invocation downloads are gathered at the end (126-128), a failure
re-raising exactly as asyncio.gather does. -/
def dumpRun (env : DumpEnv) : Nat → DCall → DSt → Except DErr (List SNode × List String) × DSt
  | 0, _, st => (.error .fuelOut, st)
  | fuel+1, .walk parent, st =>
    match dumpRun env fuel (.pageLoop parent (pagesOf env parent)) st with
    | (.error e, st1) => (.error e, st1)
    | (.ok (snaps, dls), st1) =>
      if dls.all env.downloadOk then (.ok (snaps, []), st1)
      else (.error .downloadFailed, st1)
  | fuel+1, .pageLoop parent pgs, st =>
    match pgs with
    | [] => (.ok ([], []), st)
    | pg :: rest =>
      if cancelNow env st.fc then (.error .cancelled, st)
      else
        let st1 : DSt := { st with fc := st.fc + 1, fetchLog := st.fetchLog ++ [(parent, st.fc)] }
        match dumpRun env fuel (.blockLoop parent pg) st1 with
        | (.error e, st2) => (.error e, st2)
        | (.ok (s1, d1), st2) =>
          match dumpRun env fuel (.pageLoop parent rest) st2 with
          | (.error e, st3) => (.error e, st3)
          | (.ok (s2, d2), st3) => (.ok (s1 ++ s2, d1 ++ d2), st3)
  | fuel+1, .blockLoop parent bs, st =>
    match bs with
    | [] => (.ok ([], []), st)
    | b :: rest =>
      let fs : List FileRec :=
        if b.btype ∈ assetTypes then
          match blockUrl b with
          | some u => [mkFileRec env.relDir b.id u]
          | none => []
        else []
      let dl : List String :=
        if b.btype ∈ assetTypes then
          match blockUrl b with
          | some u => [u]
          | none => []
        else []
      match (if b.hasChildren then dumpRun env fuel (.walk b.id) st else (.ok ([], []), st)) with
      | (.error e, st1) => (.error e, st1)
      | (.ok (kids, _), st1) =>
        let st2 : DSt := { st1 with manifest := st1.manifest ++ [⟨b.id, b.btype, b.hasChildren, fs⟩] }
        match dumpRun env fuel (.blockLoop parent rest) st2 with
        | (.error e, st3) => (.error e, st3)
        | (.ok (s2, d2), st3) =>
          (.ok (SNode.mk b.id b.btype b.hasChildren b.caption b.pageTitle kids :: s2, dl ++ d2), st3)

/-- The file writes a capture performs as its final step. -/
inductive WriteEv where
  | treeJson (root : SNode)
  | manifestJson (nodes : List ManNode)
  | dbTreeJson (dbId : String) (entries : List (String × List SNode))
  | dbManifestJson (entries : List (String × List FileRec × List ManNode))

/-- Model of NotionDumpService.dump_page_tree (dump_service.py 62-140):
the root page fetch is the remote call at time 0 (line 76), the walk
starts at time 1, and tree.json and manifest.json are written together
only after the walk has returned (134-137).  Progress callbacks, id
normalization and directory creation are external effects with no
bearing on the claims. -/
def dumpPageTree (env : DumpEnv) (fuel : Nat) (rootId : String) :
    List WriteEv × Except DErr Unit × DSt :=
  let st0 : DSt := { fc := 1, fetchLog := [], manifest := [] }
  match dumpRun env fuel (.walk rootId) st0 with
  | (.error e, st) => ([], .error e, st)
  | (.ok (kids, _), st) =>
    ([.treeJson (SNode.mk rootId "root" true [] none kids), .manifestJson st.manifest], .ok (), st)

/-- The databases.query API also returns at least one page. -/
def queryPagesOf (env : DumpEnv) : List (List String) :=
  match env.queryPages with
  | [] => [[]]
  | l => l

/-- The entry-query pagination loop of dump_database_tree
(dump_service.py 176-187): check_cancel once per round (177), then one
databases.query call. -/
def dbQueryLoop (env : DumpEnv) : List (List String) → DSt → Except DErr (List String) × DSt
  | [], st => (.ok [], st)
  | pg :: rest, st =>
    if cancelNow env st.fc then (.error .cancelled, st)
    else
      let st1 : DSt := { st with fc := st.fc + 1 }
      if rest.isEmpty then (.ok pg, st1)
      else
        match dbQueryLoop env rest st1 with
        | (.ok more, st2) => (.ok (pg ++ more), st2)
        | (.error e, st2) => (.error e, st2)

/-- Control positions of _process_entry_blocks. -/
inductive ECall where
  | entry (parent : String)
  | epageLoop (parent : String) (rest : List (List RawBlock))
  | eblockLoop (parent : String) (blocks : List RawBlock)

/-- Interpreter for _process_entry_blocks (dump_service.py 242-285): the
same paginated walk as walk_children, but with no cancellation
checkpoint anywhere in it, per-call manifest node lists in which the
manifest nodes of a subtree precede the node of their parent block
(274-279), and downloads accumulated into the one shared list that
dump_database_tree gathers at the end (227-229). -/
def entryRun (env : DumpEnv) : Nat → ECall → DSt → Except DErr (List SNode × List ManNode × List String) × DSt
  | 0, _, st => (.error .fuelOut, st)
  | fuel+1, .entry p, st => entryRun env fuel (.epageLoop p (pagesOf env p)) st
  | fuel+1, .epageLoop p pgs, st =>
    match pgs with
    | [] => (.ok ([], [], []), st)
    | pg :: rest =>
      let st1 : DSt := { st with fc := st.fc + 1, fetchLog := st.fetchLog ++ [(p, st.fc)] }
      match entryRun env fuel (.eblockLoop p pg) st1 with
      | (.error e, st2) => (.error e, st2)
      | (.ok (s1, m1, d1), st2) =>
        match entryRun env fuel (.epageLoop p rest) st2 with
        | (.error e, st3) => (.error e, st3)
        | (.ok (s2, m2, d2), st3) => (.ok (s1 ++ s2, m1 ++ m2, d1 ++ d2), st3)
  | fuel+1, .eblockLoop p bs, st =>
    match bs with
    | [] => (.ok ([], [], []), st)
    | b :: rest =>
      let fs : List FileRec :=
        if b.btype ∈ assetTypes then
          match blockUrl b with
          | some u => [mkFileRec env.relDir b.id u]
          | none => []
        else []
      let dl : List String :=
        if b.btype ∈ assetTypes then
          match blockUrl b with
          | some u => [u]
          | none => []
        else []
      match (if b.hasChildren then entryRun env fuel (.entry b.id) st else (.ok ([], [], []), st)) with
      | (.error e, st1) => (.error e, st1)
      | (.ok (kids, kidMans, kidDls), st1) =>
        match entryRun env fuel (.eblockLoop p rest) st1 with
        | (.error e, st2) => (.error e, st2)
        | (.ok (s2, m2, d2), st2) =>
          (.ok (SNode.mk b.id b.btype b.hasChildren b.caption b.pageTitle kids :: s2,
                (kidMans ++ [⟨b.id, b.btype, b.hasChildren, fs⟩]) ++ m2,
                (dl ++ kidDls) ++ d2), st2)

/-- The entry loop of dump_database_tree (dump_service.py 195-224):
check_cancel once per entry (196), then the entry's block tree is
processed by _process_entry_blocks; each entry contributes its content
blocks, a manifest entry whose files field is the concatenation of the
files of its block manifest nodes (214-216), and its downloads. -/
def entriesLoop (env : DumpEnv) (fuel : Nat) :
    List String → DSt →
    Except DErr (List (String × List SNode) × List (String × List FileRec × List ManNode) × List String) × DSt
  | [], st => (.ok ([], [], []), st)
  | eid :: rest, st =>
    if cancelNow env st.fc then (.error .cancelled, st)
    else
      match entryRun env fuel (.entry eid) st with
      | (.error e, st1) => (.error e, st1)
      | (.ok (content, manNodes, dls), st1) =>
        match entriesLoop env fuel rest st1 with
        | (.error e, st2) => (.error e, st2)
        | (.ok (es, ms, ds), st2) =>
          (.ok ((eid, content) :: es,
                (eid, (manNodes.map ManNode.files).flatten, manNodes) :: ms,
                dls ++ ds), st2)

/-- Model of NotionDumpService.dump_database_tree (dump_service.py
142-240): the database fetch is the remote call at time 0 (156), then
the query pagination, then the per-entry processing, then the one global
download gather (227-229), and finally tree.json and manifest.json are
written together (234-237). -/
def dumpDatabaseTree (env : DumpEnv) (fuel : Nat) (dbId : String) :
    List WriteEv × Except DErr Unit × DSt :=
  let st0 : DSt := { fc := 1, fetchLog := [], manifest := [] }
  match dbQueryLoop env (queryPagesOf env) st0 with
  | (.error e, st) => ([], .error e, st)
  | (.ok entryIds, st) =>
    match entriesLoop env fuel entryIds st with
    | (.error e, st1) => ([], .error e, st1)
    | (.ok (entries, manEntries, dls), st1) =>
      if dls.all env.downloadOk then
        ([.dbTreeJson dbId entries, .dbManifestJson manEntries], .ok (), st1)
      else ([], .error .downloadFailed, st1)

/-- Sibling-order correctness of one captured node against the
pagination oracle: a node that was recursed into (has_children) has
exactly the concatenation of its children pages in response order, a
node that was not has no children, and the same holds below. -/
inductive TreeOK (env : DumpEnv) : SNode → Prop where
  | mk : ∀ (i t : String) (hc : Bool) (cap : List String) (pt : Option String) (cs : List SNode),
      (hc = true → cs.map SNode.id = ((pagesOf env i).flatten.map RawBlock.id)) →
      (hc = false → cs = []) →
      (∀ c ∈ cs, TreeOK env c) →
      TreeOK env (SNode.mk i t hc cap pt cs)

/-! ## Materialization engine (src/app/migrate_service.py) and the
asset-map builder (src/app/routers/api.py) -/

/-- One asset record of the migrate-time asset map
(api.py 115-119). -/
structure AssetInfo where
  localPath : Option String
  relPath : String
  original : Option String
deriving DecidableEq

/-- The block write payload parts the materializer constructs
(migrate_service.py 174-197): the kind tag, the file_upload reference
when an upload succeeded, and the caption (empty list = absent).  All
other payload data passes through from the source node unchanged and is
opaque here. -/
structure BlockPayload where
  btype : String
  fileRef : Option String
  caption : List String
deriving DecidableEq

/-- Upload API interactions logged by the upload path. -/
inductive UEvent where
  | ucreate (path : String)
  | usend (path : String)
deriving DecidableEq

def UEvent.upath : UEvent → String
  | .ucreate p => p
  | .usend p => p

/-- State threaded through a migration: the remote-call clock, the
upload cache (local path to upload id, migrate_service.py 35), the
upload call log, and the processed-node counter (counter["done"]). -/
structure MSt where
  t : Nat
  cache : List (String × String)
  uevents : List UEvent
  done : Nat
deriving DecidableEq

/-- External collaborators of a migration run, each remote response a
function of the remote-call time: the read-only asset map, the batch
append endpoint (none = the call raised; some gives the created results,
each with an optional id), child-page creation (outer none = the call
raised, inner option = the id of the response), file size on disk (none
= OSError), the upload size ceiling, the two upload endpoints, and the
sampled cancel callback. -/
structure MigEnv where
  amap : String → Option (List AssetInfo)
  append : Nat → String → List BlockPayload → Option (List (Option String))
  createPage : Nat → String → String → Option (Option String)
  usize : String → Option Nat
  maxBytes : Nat
  ucreate : Nat → String → Option String
  usend : Nat → String → Bool
  cancel : Nat → Bool

/-- Lookup in the upload cache (a dict keyed by local path). -/
def lookupCache (cache : List (String × String)) (p : String) : Option String :=
  (cache.find? (fun e => e.1 == p)).map (fun e => e.2)

/-- NotionMigrateService._upload_to_notion (migrate_service.py 129-163):
cache hit returns the cached id with no remote call; then the size check
(getsize may raise OSError, and a size above the ceiling fails), the
create call, the send call, and only a fully successful upload is
inserted into the cache. -/
def uploadToNotion (env : MigEnv) (st : MSt) (p : String) : Option String × MSt :=
  match lookupCache st.cache p with
  | some uid => (some uid, st)
  | none =>
    match env.usize p with
    | none => (none, st)
    | some sz =>
      if env.maxBytes < sz then (none, st)
      else
        let stc : MSt := { st with t := st.t + 1, uevents := st.uevents ++ [.ucreate p] }
        match env.ucreate st.t p with
        | none => (none, stc)
        | some uid =>
          let sts : MSt := { stc with t := stc.t + 1, uevents := stc.uevents ++ [.usend p] }
          if env.usend stc.t p then (some uid, { sts with cache := sts.cache ++ [(p, uid)] })
          else (none, sts)

/-- The record the materializer consults for a node:
(asset_map.get(id, []) or [{}])[0] (migrate_service.py 180), an empty
record when the node id is absent or its list is empty. -/
def firstAsset (amap : String → Option (List AssetInfo)) (nid : String) : AssetInfo :=
  match amap nid with
  | some (r :: _) => r
  | some [] => ⟨none, "", none⟩
  | none => ⟨none, "", none⟩

/-- The caption fallback of _node_to_block_payload (migrate_service.py
192-195): an empty caption is replaced by one holding the original
filename when that is a truthy string. -/
def captionWithOriginal (cap : List String) (original : Option String) : List String :=
  if cap.isEmpty then
    match original with
    | some o => if o = "" then [] else [o]
    | none => []
  else cap

/-- NotionMigrateService._node_to_block_payload (migrate_service.py
168-199).  For an asset kind the payload is rebuilt: the first asset
record is consulted, its local path (if any) uploaded, a successful
upload yields a file_upload reference and a failed one yields an empty
payload with no file reference; the caption is then preserved or derived
from the original filename.  Payloads of other kinds pass through with
their caption. -/
def nodeToBlockPayload (env : MigEnv) (st : MSt) (n : SNode) : BlockPayload × MSt :=
  if n.btype ∈ assetTypes then
    let info := firstAsset env.amap n.id
    let up :=
      match info.localPath with
      | some lp => uploadToNotion env st lp
      | none => (none, st)
    ({ btype := n.btype, fileRef := up.1, caption := captionWithOriginal n.caption info.original }, up.2)
  else
    ({ btype := n.btype, fileRef := none, caption := n.caption }, st)

/-- Payload conversion of a whole chunk (migrate_service.py 261-263). -/
def convertChunk (env : MigEnv) : List SNode → MSt → List BlockPayload × MSt
  | [], st => ([], st)
  | n :: ns, st =>
    let (p, st1) := nodeToBlockPayload env st n
    let (ps, st2) := convertChunk env ns st1
    (p :: ps, st2)

/-- Slicing regular_blocks[i:i+APPEND_LIMIT] for i in range(0, len,
APPEND_LIMIT) (migrate_service.py 256-259), with a structural fuel equal
to the list length. -/
def chunksOfAux {α : Type} : Nat → Nat → List α → List (List α)
  | 0, _, _ => []
  | _+1, _, [] => []
  | fuel+1, k, l => l.take k :: chunksOfAux fuel k (l.drop k)

def chunksOf {α : Type} (k : Nat) (l : List α) : List (List α) :=
  chunksOfAux l.length k l

/-- Per-level trace events of one invocation of the recursive
materialization: the batch append attempt of a chunk (with the source
ids and payloads sent, and whether the call succeeded), a per-item
fallback append, a child-page creation, and a recursive descent into a
node's children recording the parent id the descent used. -/
inductive LEvent where
  | batchTry (srcIds : List String) (payloads : List BlockPayload) (succeeded : Bool)
  | single (srcId : String) (created : Option String)
  | pageCreate (srcId : String) (created : Option String)
  | descend (srcId : String) (usedParent : String)
deriving DecidableEq

/-- Abort reasons of a migration: the CancelledError of check_cancel, or
fuel exhaustion (embedding artifact). -/
inductive MErr where
  | cancelled
  | fuelOut
deriving DecidableEq

/-- The per-item fallback of _process_regular_blocks_batch
(migrate_service.py 268-277): after a failed batch append, each node of
the chunk is checked for cancellation, converted again (so uploads are
retried through the cache) and appended on its own; the failure of an
item contributes an empty result.  Returns the fallback events, the
per-node created ids and the new state. -/
def fallbackChunk (env : MigEnv) (parent : String) :
    List SNode → MSt → Except MErr (List LEvent × List (Option String) × MSt)
  | [], st => .ok ([], [], st)
  | n :: ns, st =>
    if env.cancel st.t then .error .cancelled
    else
      let (pl, st1) := nodeToBlockPayload env st n
      let created :=
        match env.append st1.t parent [pl] with
        | none => none
        | some rs => rs.headD none
      let st2 : MSt := { st1 with t := st1.t + 1 }
      match fallbackChunk env parent ns st2 with
      | .error e => .error e
      | .ok (evs, cs, st3) => .ok (.single n.id created :: evs, created :: cs, st3)

/-- Control positions of the recursive materialization. -/
inductive MCall where
  | level (parent : String) (pending : List SNode) (batch : List SNode)
  | chunks (parent : String) (rest : List (List SNode))
  | chunkRun (parent : String) (chunk : List SNode)
  | nodesLoop (parent : String) (nodes : List SNode) (results : List (Option String))
  | page (parent : String) (node : SNode)

/-- Interpreter for _append_children_recursive,
_process_regular_blocks_batch and _process_child_page_block
(migrate_service.py 204-329).  level is the main loop with its
accumulated run of regular blocks (217-243, check_cancel per node at
221, the run flushed before each child_page and at the end); chunks is
the chunk loop of the batch processor (256-259, check_cancel per chunk
at 257); chunkRun is one chunk: payload conversion, the batch append
(one remote call whether it returns or raises) and on failure the
per-item fallback; nodesLoop is the per-node result loop (279-290):
counter advance, then a recursion into the children of every node that
has a nonempty children list, under the created id or, when that is
missing, the current parent id (289); page creates a child page (one
remote call), advances the counter whether it succeeded or raised
(314/329), and recurses only when a created id came back (322).  Each
invocation returns the events of its own level; the events of nested
levels are observations of their own invocations, while their state
threads through. -/
def migRun (env : MigEnv) : Nat → MCall → MSt → Except MErr (List LEvent × MSt)
  | 0, _, _ => .error .fuelOut
  | fuel+1, .level parent pending batch, st =>
    match pending with
    | [] =>
      if batch.isEmpty then .ok ([], st)
      else migRun env fuel (.chunks parent (chunksOf 100 batch)) st
    | n :: rest =>
      if env.cancel st.t then .error .cancelled
      else if n.btype = "child_page" then
        match (if batch.isEmpty then Except.ok ([], st)
               else migRun env fuel (.chunks parent (chunksOf 100 batch)) st) with
        | .error e => .error e
        | .ok (e1, st1) =>
          match migRun env fuel (.page parent n) st1 with
          | .error e => .error e
          | .ok (e2, st2) =>
            match migRun env fuel (.level parent rest []) st2 with
            | .error e => .error e
            | .ok (e3, st3) => .ok (e1 ++ (e2 ++ e3), st3)
      else migRun env fuel (.level parent rest (batch ++ [n])) st
  | fuel+1, .chunks parent cs, st =>
    match cs with
    | [] => .ok ([], st)
    | c :: rest =>
      if env.cancel st.t then .error .cancelled
      else
        match migRun env fuel (.chunkRun parent c) st with
        | .error e => .error e
        | .ok (e1, st1) =>
          match migRun env fuel (.chunks parent rest) st1 with
          | .error e => .error e
          | .ok (e2, st2) => .ok (e1 ++ e2, st2)
  | fuel+1, .chunkRun parent chunk, st =>
    let (pls, st1) := convertChunk env chunk st
    match env.append st1.t parent pls with
    | some results =>
      let st2 : MSt := { st1 with t := st1.t + 1 }
      match migRun env fuel (.nodesLoop parent chunk results) st2 with
      | .error e => .error e
      | .ok (e1, st3) => .ok (.batchTry (chunk.map SNode.id) pls true :: e1, st3)
    | none =>
      let st2 : MSt := { st1 with t := st1.t + 1 }
      match fallbackChunk env parent chunk st2 with
      | .error e => .error e
      | .ok (sevs, results, st3) =>
        match migRun env fuel (.nodesLoop parent chunk results) st3 with
        | .error e => .error e
        | .ok (e1, st4) => .ok (.batchTry (chunk.map SNode.id) pls false :: (sevs ++ e1), st4)
  | fuel+1, .nodesLoop parent nodes results, st =>
    match nodes with
    | [] => .ok ([], st)
    | n :: rest =>
      let created := results.headD none
      let st1 : MSt := { st with done := st.done + 1 }
      if n.hasChildren && !n.children.isEmpty then
        match migRun env fuel (.level (created.getD parent) n.children []) st1 with
        | .error e => .error e
        | .ok (_, st2) =>
          match migRun env fuel (.nodesLoop parent rest results.tail) st2 with
          | .error e => .error e
          | .ok (e2, st3) => .ok (.descend n.id (created.getD parent) :: e2, st3)
      else
        match migRun env fuel (.nodesLoop parent rest results.tail) st1 with
        | .error e => .error e
        | .ok (e2, st2) => .ok (e2, st2)
  | fuel+1, .page parent n, st =>
    if env.cancel st.t then .error .cancelled
    else
      match env.createPage st.t parent (n.pageTitle.getD "Untitled Page") with
      | none => .ok ([.pageCreate n.id none], { st with t := st.t + 1, done := st.done + 1 })
      | some cido =>
        let st1 : MSt := { st with t := st.t + 1, done := st.done + 1 }
        match cido with
        | some cid =>
          if n.hasChildren && !n.children.isEmpty then
            match migRun env fuel (.level cid n.children []) st1 with
            | .error e => .error e
            | .ok (_, st2) => .ok ([.pageCreate n.id (some cid)], st2)
          else .ok ([.pageCreate n.id (some cid)], st1)
        | none => .ok ([.pageCreate n.id none], st1)

/-- The source ids whose creation a level submitted, in request order: a
successful batch submits its ids, a failed batch is superseded by its
per-item fallback, and each page creation submits its node. -/
def submittedIds : List LEvent → List String
  | [] => []
  | .batchTry ids _ true :: r => ids ++ submittedIds r
  | .batchTry _ _ false :: r => submittedIds r
  | .single i _ :: r => i :: submittedIds r
  | .pageCreate i _ :: r => i :: submittedIds r
  | .descend _ _ :: r => submittedIds r

/-- The ids a level call is in charge of, in sibling order. -/
def mcallIds : MCall → List String
  | .level _ pending batch => batch.map SNode.id ++ pending.map SNode.id
  | .chunks _ cs => cs.flatten.map SNode.id
  | .chunkRun _ chunk => chunk.map SNode.id
  | .nodesLoop _ _ _ => []
  | .page _ n => [n.id]

/-- The descent events the per-node result loop emits, given the chunk
nodes and the positional created ids: one descent per node with a
nonempty children list, under the created id or the parent id when the
created id is missing. -/
def descSpec (parent : String) : List SNode → List (Option String) → List LEvent
  | [], _ => []
  | n :: rest, results =>
    let created := results.headD none
    let tailEvs := descSpec parent rest results.tail
    if n.hasChildren && !n.children.isEmpty then
      .descend n.id (created.getD parent) :: tailEvs
    else tailEvs

/-- A sequence of upload requests as a migration issues them (uploads
are awaited inline per node, so they are sequential within one job). -/
def runUploads (env : MigEnv) : List String → MSt → List (Option String) × MSt
  | [], st => ([], st)
  | p :: ps, st =>
    let (r, st1) := uploadToNotion env st p
    let (rs, st2) := runUploads env ps st1
    (r :: rs, st2)

/-- One manifest file entry resolved against the dump root
(api.py 112-119): a falsy relative path yields no local path; the
original falls back to the saved name and then to "file". -/
def toAssetInfo (dumpRoot : String) (fr : FileRec) : AssetInfo :=
  { localPath := if fr.path = "" then none else some (dumpRoot ++ "/" ++ fr.path)
  , relPath := fr.path
  , original := some (if fr.original = "" then (if fr.saved = "" then "file" else fr.saved) else fr.original) }

/-- Worker of _build_asset_map_from_manifest (api.py 99-122): nodes with
a falsy id or no files are skipped, every file entry of a kept node is
converted in order, and the dict is an association list in which the
most recent insertion is found first. -/
def buildAssetMapGo (dumpRoot : String) : List ManNode → List (String × List AssetInfo) → List (String × List AssetInfo)
  | [], acc => acc
  | n :: rest, acc =>
    if n.id = "" || n.files.isEmpty then buildAssetMapGo dumpRoot rest acc
    else buildAssetMapGo dumpRoot rest ((n.id, n.files.map (toAssetInfo dumpRoot)) :: acc)

/-- _build_asset_map_from_manifest (api.py 99-122). -/
def buildAssetMap (dumpRoot : String) (nodes : List ManNode) : List (String × List AssetInfo) :=
  buildAssetMapGo dumpRoot nodes []

/-- Dictionary lookup in the built asset map. -/
def lookupAmap (m : List (String × List AssetInfo)) (k : String) : Option (List AssetInfo) :=
  (m.find? (fun e => e.1 == k)).map (fun e => e.2)

/-- The terminal status the migrate runner assigns (jobs.py 325-341)
given the service outcome and the cancel flag at return time: a normal
return is done unless the flag is set, CancelledError yields canceled,
any other exception yields error. -/
def runnerOutcome (r : Except MErr Unit) (flag : Bool) : JStatus :=
  match r with
  | .ok _ => if flag then .canceled else .done
  | .error .cancelled => .canceled
  | .error .fuelOut => .error

/-- The ids the dump interpreter must return for each control position,
in pagination order. -/
def dcallIds (env : DumpEnv) : DCall → List String
  | .walk p => (pagesOf env p).flatten.map RawBlock.id
  | .pageLoop _ pgs => pgs.flatten.map RawBlock.id
  | .blockLoop _ bs => bs.map RawBlock.id

/-- The job state right after a cancel that preceded the worker start. -/
def cState : RState := ⟨.canceled, true, .notStarted⟩

/-- The same job after its worker observed the flag and returned. -/
def cStateF : RState := ⟨.canceled, true, .finished⟩

/-! ### Concrete instances used by witnesses and counterexamples -/

def wBlockA : RawBlock := ⟨"a", "paragraph", false, none, [], none⟩

def wBlockB : RawBlock := ⟨"b", "paragraph", false, none, [], none⟩

/-- A page capture oracle: the root has two children returned on two
pagination rounds. -/
def wDumpEnv : DumpEnv :=
  { pages := fun p => if p = "r" then [[wBlockA], [wBlockB]] else []
  , queryPages := [], cancelFrom := 1000, downloadOk := fun _ => true, relDir := "d" }

def wSt0 : DSt := ⟨1, [], []⟩

def wSnapA : SNode := SNode.mk "a" "paragraph" false [] none []

def wSnapB : SNode := SNode.mk "b" "paragraph" false [] none []

def wStF : DSt := ⟨3, [("r", 1), ("r", 2)], [⟨"a", "paragraph", false, []⟩, ⟨"b", "paragraph", false, []⟩]⟩

/-- A capture oracle whose cancel callback reports true from the very
first moment. -/
def cancelEnv : DumpEnv :=
  { pages := fun _ => [], queryPages := [], cancelFrom := 0
  , downloadOk := fun _ => true, relDir := "d" }

def wPara : SNode := SNode.mk "x" "paragraph" false [] none []

def wPage : SNode := SNode.mk "y" "child_page" false [] (some "T") []

/-- A migration oracle where every remote call succeeds. -/
def wMigEnv : MigEnv :=
  { amap := fun _ => none
  , append := fun _ _ pls => some (pls.map (fun _ => some "nb"))
  , createPage := fun _ _ _ => some (some "np")
  , usize := fun _ => none, maxBytes := 0
  , ucreate := fun _ _ => none, usend := fun _ _ => false
  , cancel := fun _ => false }

def wM0 : MSt := ⟨0, [], [], 0⟩

def wPl : BlockPayload := ⟨"paragraph", none, []⟩

def wEvs : List LEvent := [.batchTry ["x"] [wPl] true, .pageCreate "y" (some "np")]

def wMF : MSt := ⟨2, [], [], 2⟩

def cexB1 : RawBlock := ⟨"b1", "paragraph", false, none, [], none⟩

def cexB2 : RawBlock := ⟨"b2", "paragraph", false, none, [], none⟩

/-- A database capture oracle: one query page with one entry whose
children need two pagination rounds, the cancel event set from
remote-call time 3 (after the per-entry checkpoint has passed). -/
def cexDbEnv : DumpEnv :=
  { pages := fun p => if p = "e1" then [[cexB1], [cexB2]] else []
  , queryPages := [["e1"]]
  , cancelFrom := 3
  , downloadOk := fun _ => true
  , relDir := "d" }

def wC8para : SNode := SNode.mk "p1" "paragraph" false [] none []

def wC8img : SNode := SNode.mk "i1" "image" false [] none []

/-- The end-to-end setting of spec section 8: an empty asset map and a
remote side whose appends succeed. -/
def wC8Env : MigEnv :=
  { amap := fun _ => none
  , append := fun _ _ pls => some (pls.map (fun _ => some "cb"))
  , createPage := fun _ _ _ => none
  , usize := fun _ => none, maxBytes := 0
  , ucreate := fun _ _ => none, usend := fun _ _ => false
  , cancel := fun _ => false }

/-- An asset map holding a record for the image node whose local file is
missing on disk (getsize raises). -/
def wC8fEnv : MigEnv :=
  { amap := fun k => if k = "i1" then some [⟨some "f", "d/f", some "img.png"⟩] else none
  , append := fun _ _ pls => some (pls.map (fun _ => some "cb"))
  , createPage := fun _ _ _ => none
  , usize := fun _ => none, maxBytes := 0
  , ucreate := fun _ _ => none, usend := fun _ _ => false
  , cancel := fun _ => false }

/-- A migration oracle where every append call raises. -/
def wFailEnv : MigEnv :=
  { amap := fun _ => none
  , append := fun _ _ _ => none
  , createPage := fun _ _ _ => none
  , usize := fun _ => none, maxBytes := 0
  , ucreate := fun _ _ => none, usend := fun _ _ => false
  , cancel := fun _ => false }

def wK : SNode := SNode.mk "k" "paragraph" false [] none []

def wN1 : SNode := SNode.mk "n1" "paragraph" false [] none []

def wN2 : SNode := SNode.mk "n2" "paragraph" true [] none [wK]

def wC3evs : List LEvent :=
  [.batchTry ["n1", "n2"] [wPl, wPl] false, .single "n1" none, .single "n2" none, .descend "n2" "par"]

/-- An upload oracle where the upload of any file succeeds with id "u1". -/
def wUpEnv : MigEnv :=
  { amap := fun _ => none
  , append := fun _ _ _ => none
  , createPage := fun _ _ _ => none
  , usize := fun _ => some 1, maxBytes := 10
  , ucreate := fun _ _ => some "u1", usend := fun _ _ => true
  , cancel := fun _ => false }

/-- A migration state whose cache already holds the path "p". -/
def wCacheSt : MSt := ⟨0, [("p", "u0")], [], 0⟩

/-- The four dump_database jobs admitted by the unbounded capacity check. -/
def c1Jobs : List MJob :=
  [⟨1, "dump_database", .queued, false, ""⟩, ⟨2, "dump_database", .queued, false, ""⟩,
   ⟨3, "dump_database", .queued, false, ""⟩, ⟨4, "dump_database", .queued, false, ""⟩]

def wC6jobs : List MJob := [⟨1, "dump", .queued, false, ""⟩, ⟨2, "dump", .done, false, "x"⟩]

def w10fileA : FileRec := ⟨"u1", "d/a.png", "a.png", "n1.png"⟩

def w10fileB : FileRec := ⟨"u2", "d/b.png", "b.png", "n1.bin"⟩

def w10nodes : List ManNode :=
  [⟨"n0", "paragraph", false, []⟩, ⟨"n1", "image", false, [w10fileA, w10fileB]⟩]

/-! ## Theorems -/

/-! ### Job lifecycle helpers -/

theorem runActs_append (s : RState) (a b : List RAct) :
    runActs s (a ++ b) = runActs (runActs s a) b := by
  unfold runActs
  exact List.foldl_append ..

theorem rstep_pre (s : RState) (hs : s = rInit ∨ s = cState) (a : RAct)
    (ha : ¬ a = RAct.workerStart) : rstep s a = rInit ∨ rstep s a = cState := by
  rcases hs with h | h <;> subst h <;> cases a <;> first | decide | exact absurd rfl ha

theorem runActs_pre : ∀ (pre : List RAct) (s : RState), (s = rInit ∨ s = cState) →
    RAct.workerStart ∉ pre → (runActs s pre = rInit ∨ runActs s pre = cState) := by
  intro pre
  induction pre with
  | nil => intro s hs _; simpa [runActs] using hs
  | cons a rest ih =>
    intro s hs hmem
    have ha : ¬ a = RAct.workerStart := fun h => hmem (h ▸ List.mem_cons_self a rest)
    have hstep := rstep_pre s hs a ha
    have hr : runActs s (a :: rest) = runActs (rstep s a) rest := by
      simp [runActs]
    rw [hr]
    exact ih (rstep s a) hstep (fun h => hmem (List.mem_cons_of_mem a h))

theorem rstep_post (s : RState) (hs : s = cState ∨ s = cStateF) (a : RAct) :
    rstep s a = cState ∨ rstep s a = cStateF := by
  rcases hs with h | h <;> subst h <;> cases a <;> decide

theorem runActs_post : ∀ (post : List RAct) (s : RState), (s = cState ∨ s = cStateF) →
    (runActs s post = cState ∨ runActs s post = cStateF) := by
  intro post
  induction post with
  | nil => intro s hs; simpa [runActs] using hs
  | cons a rest ih =>
    intro s hs
    have hr : runActs s (a :: rest) = runActs (rstep s a) rest := by
      simp [runActs]
    rw [hr]
    exact ih (rstep s a) (rstep_post s hs a)

/-! ### C5 -/

/-- C5: a job whose cancel is applied after enqueue and before its
worker begins executing (no workerStart action precedes the cancel) has
status canceled from that moment on, over every continuation of the
interleaving: in particular it is never in status running at any later
point. -/
theorem cancel_before_start_never_running (pre post : List RAct)
    (h : RAct.workerStart ∉ pre) :
    (runActs rInit (pre ++ RAct.cancelReq :: post)).status = JStatus.canceled := by
  have h1 : runActs rInit (pre ++ RAct.cancelReq :: post)
      = runActs (rstep (runActs rInit pre) RAct.cancelReq) post := by
    rw [show pre ++ RAct.cancelReq :: post = (pre ++ [RAct.cancelReq]) ++ post by simp,
        runActs_append, runActs_append]
    rfl
  rw [h1]
  have h2 := runActs_pre pre rInit (Or.inl rfl) h
  have h3 : rstep (runActs rInit pre) RAct.cancelReq = cState := by
    rcases h2 with h2 | h2 <;> rw [h2] <;> decide
  rw [h3]
  rcases runActs_post post cState (Or.inl rfl) with h4 | h4 <;> rw [h4] <;> decide

theorem cancel_before_start_never_running_witness :
    (RAct.workerStart ∉ ([] : List RAct))
    ∧ (runActs rInit ([] ++ RAct.cancelReq :: [RAct.workerStart, RAct.finishOk])).status
        = JStatus.canceled :=
  ⟨by decide,
   cancel_before_start_never_running [] [RAct.workerStart, RAct.finishOk] (by decide)⟩

/-! ### C1 -/

/-- C1 (failing input): from an empty job table, four successive
enqueue_dump_database calls under the default limits (3, 3) all succeed,
because the capacity check counts active jobs of type "dump" while the
inserted job has type "dump_database"; the table then holds four active
dump_database jobs, above the limit 3, while the count the check
consulted is still zero. -/
theorem enqueue_dump_database_capacity_unbounded :
    (enqueueDumpDatabase 3 3 [] 1).bind
      (fun s => (enqueueDumpDatabase 3 3 s 2).bind
        (fun s => (enqueueDumpDatabase 3 3 s 3).bind
          (fun s => enqueueDumpDatabase 3 3 s 4))) = some c1Jobs
    ∧ countActive c1Jobs "dump_database" = 4
    ∧ 3 < countActive c1Jobs "dump_database"
    ∧ countActive c1Jobs "dump" = 0 :=
  ⟨rfl, rfl, by decide, rfl⟩

/-! ### C6 -/

theorem findJob_updateJob (jobs : List MJob) (jid : Nat) (f : MJob → MJob)
    (hf : ∀ x, (f x).id = x.id) :
    findJob (updateJob jobs jid f) jid = (findJob jobs jid).map f := by
  induction jobs with
  | nil => rfl
  | cons j rest ih =>
    unfold findJob updateJob at *
    simp only [List.map_cons]
    rcases hj : (j.id == jid) with _ | _
    · rw [if_neg (by simp [hj])]
      rw [List.find?_cons_of_neg _ (by simp [hj]),
          List.find?_cons_of_neg _ (by simp [hj])]
      exact ih
    · rw [if_pos (by simp [hj])]
      rw [List.find?_cons_of_pos _ (by simp [hf j, hj]),
          List.find?_cons_of_pos _ (by simp [hj])]
      rfl

/-- C6: cancel returns false exactly when the job id is absent from the
live table; a terminal job yields true with the table unchanged; a
non-terminal job yields true with its cancel flag set and its status
canceled at once. -/
theorem cancel_return_contract (jobs : List MJob) (jid : Nat) :
    ((cancelJob jobs jid).1 = false ↔ findJob jobs jid = none)
    ∧ (∀ j, findJob jobs jid = some j → isTerminal j.status = true →
        cancelJob jobs jid = (true, jobs))
    ∧ (∀ j, findJob jobs jid = some j → isTerminal j.status = false →
        (cancelJob jobs jid).1 = true
        ∧ findJob (cancelJob jobs jid).2 jid
          = some { j with cancelFlag := true, status := JStatus.canceled, message := "Cancelled" }) := by
  refine ⟨?_, ?_, ?_⟩
  · unfold cancelJob
    rcases h : findJob jobs jid with _ | j
    · simp
    · by_cases ht : isTerminal j.status <;> simp [ht]
  · intro j h ht
    simp [cancelJob, h, ht]
  · intro j h ht
    have hu := findJob_updateJob jobs jid
      (fun x => { x with cancelFlag := true, status := JStatus.canceled, message := "Cancelled" })
      (fun x => rfl)
    simp [cancelJob, h, ht, hu]

theorem cancel_return_contract_witness :
    findJob wC6jobs 1 = some ⟨1, "dump", JStatus.queued, false, ""⟩
    ∧ isTerminal JStatus.queued = false
    ∧ (cancelJob wC6jobs 1).1 = true
    ∧ findJob (cancelJob wC6jobs 1).2 1
        = some ⟨1, "dump", JStatus.canceled, true, "Cancelled"⟩
    ∧ findJob wC6jobs 2 = some ⟨2, "dump", JStatus.done, false, "x"⟩
    ∧ cancelJob wC6jobs 2 = (true, wC6jobs)
    ∧ ((cancelJob wC6jobs 3).1 = false ↔ findJob wC6jobs 3 = none) := by
  refine ⟨rfl, rfl, ?_, ?_, rfl, ?_, ?_⟩
  · exact ((cancel_return_contract wC6jobs 1).2.2 _ rfl rfl).1
  · exact ((cancel_return_contract wC6jobs 1).2.2 _ rfl rfl).2
  · exact (cancel_return_contract wC6jobs 2).2.1 _ rfl rfl
  · exact (cancel_return_contract wC6jobs 3).1

/-! ### C4 -/

/-- C4: a page or database capture writes its tree document and manifest
together as the final step: whenever the run aborts (cancellation,
download failure, unbounded depth) no file at all has been written, and
a completed run has written exactly the pair. -/
theorem capture_atomic_pair (env : DumpEnv) (fuel : Nat) (rootId dbId : String) :
    (∀ e, (dumpPageTree env fuel rootId).2.1 = Except.error e →
      (dumpPageTree env fuel rootId).1 = [])
    ∧ ((dumpPageTree env fuel rootId).1 = []
        ∨ ∃ t m, (dumpPageTree env fuel rootId).1 = [WriteEv.treeJson t, WriteEv.manifestJson m])
    ∧ (∀ e, (dumpDatabaseTree env fuel dbId).2.1 = Except.error e →
      (dumpDatabaseTree env fuel dbId).1 = [])
    ∧ ((dumpDatabaseTree env fuel dbId).1 = []
        ∨ ∃ es ms, (dumpDatabaseTree env fuel dbId).1
            = [WriteEv.dbTreeJson dbId es, WriteEv.dbManifestJson ms]) := by
  refine ⟨?_, ?_, ?_, ?_⟩
  · intro e
    rcases hw : dumpRun env fuel (DCall.walk rootId) ⟨1, [], []⟩ with ⟨er, st⟩
    cases er with
    | error e2 => simp [dumpPageTree, hw]
    | ok r => rcases r with ⟨kids, dls⟩; simp [dumpPageTree, hw]
  · rcases hw : dumpRun env fuel (DCall.walk rootId) ⟨1, [], []⟩ with ⟨er, st⟩
    cases er with
    | error e2 => left; simp [dumpPageTree, hw]
    | ok r =>
      rcases r with ⟨kids, dls⟩
      right
      refine ⟨SNode.mk rootId "root" true [] none kids, st.manifest, ?_⟩
      simp [dumpPageTree, hw]
  · intro e
    rcases hq : dbQueryLoop env (queryPagesOf env) ⟨1, [], []⟩ with ⟨eq, st⟩
    cases eq with
    | error e2 => simp [dumpDatabaseTree, hq]
    | ok entryIds =>
      rcases hl : entriesLoop env fuel entryIds st with ⟨el, st1⟩
      cases el with
      | error e2 => simp [dumpDatabaseTree, hq, hl]
      | ok r =>
        rcases r with ⟨es, ms, dls⟩
        by_cases hd : dls.all env.downloadOk <;> simp [dumpDatabaseTree, hq, hl, hd]
  · rcases hq : dbQueryLoop env (queryPagesOf env) ⟨1, [], []⟩ with ⟨eq, st⟩
    cases eq with
    | error e2 => left; simp [dumpDatabaseTree, hq]
    | ok entryIds =>
      rcases hl : entriesLoop env fuel entryIds st with ⟨el, st1⟩
      cases el with
      | error e2 => left; simp [dumpDatabaseTree, hq, hl]
      | ok r =>
        rcases r with ⟨es, ms, dls⟩
        by_cases hd : dls.all env.downloadOk
        · right
          refine ⟨es, ms, ?_⟩
          simp [dumpDatabaseTree, hq, hl, hd]
        · left; simp [dumpDatabaseTree, hq, hl, hd]

theorem capture_atomic_pair_witness :
    (dumpPageTree cancelEnv 5 "r").2.1 = Except.error DErr.cancelled
    ∧ (dumpPageTree cancelEnv 5 "r").1 = []
    ∧ (dumpDatabaseTree cancelEnv 5 "db").2.1 = Except.error DErr.cancelled
    ∧ (dumpDatabaseTree cancelEnv 5 "db").1 = [] :=
  ⟨rfl, (capture_atomic_pair cancelEnv 5 "r" "db").1 DErr.cancelled rfl,
   rfl, (capture_atomic_pair cancelEnv 5 "r" "db").2.2.1 DErr.cancelled rfl⟩

/-! ### C7 -/

theorem lookupCache_append_self (c : List (String × String)) (p u : String)
    (h : lookupCache c p = none) : lookupCache (c ++ [(p, u)]) p = some u := by
  induction c with
  | nil => simp [lookupCache]
  | cons e rest ih =>
    unfold lookupCache at *
    rcases he : (e.1 == p) with _ | _
    · rw [List.cons_append, List.find?_cons_of_neg _ (by simp [he])]
      rw [List.find?_cons_of_neg _ (by simp [he])] at h
      exact ih h
    · rw [List.find?_cons_of_pos _ (by simp [he])] at h
      simp at h

theorem upload_cached (env : MigEnv) (st : MSt) (p uid : String)
    (h : lookupCache st.cache p = some uid) :
    uploadToNotion env st p = (some uid, st) := by
  unfold uploadToNotion
  rw [h]

theorem upload_cache_extends (env : MigEnv) (st : MSt) (p : String) :
    ∃ tail, (uploadToNotion env st p).2.cache = st.cache ++ tail := by
  unfold uploadToNotion
  rcases hl : lookupCache st.cache p with _ | uid
  · rcases hs : env.usize p with _ | sz
    · exact ⟨[], by simp⟩
    · dsimp only
      by_cases hb : env.maxBytes < sz
      · rw [if_pos hb]; exact ⟨[], by simp⟩
      · rw [if_neg hb]
        rcases hc : env.ucreate st.t p with _ | u2
        · exact ⟨[], by simp⟩
        · dsimp only
          by_cases hsend : env.usend (st.t + 1) p = true
          · rw [if_pos hsend]; exact ⟨[(p, u2)], by simp⟩
          · rw [if_neg hsend]; exact ⟨[], by simp⟩
  · exact ⟨[], by simp⟩

theorem upload_success_caches (env : MigEnv) (st : MSt) (p uid : String) (st' : MSt)
    (h : uploadToNotion env st p = (some uid, st')) :
    lookupCache st'.cache p = some uid := by
  unfold uploadToNotion at h
  rcases hl : lookupCache st.cache p with _ | u
  all_goals rw [hl] at h
  · rcases hs : env.usize p with _ | sz
    all_goals rw [hs] at h
    · exact absurd h (by simp)
    · dsimp only at h
      by_cases hb : env.maxBytes < sz
      · rw [if_pos hb] at h; exact absurd h (by simp)
      · rw [if_neg hb] at h
        rcases hc : env.ucreate st.t p with _ | u2
        all_goals rw [hc] at h
        · exact absurd h (by simp)
        · dsimp only at h
          by_cases hsend : env.usend (st.t + 1) p = true
          · rw [if_pos hsend] at h
            obtain ⟨h1, h2⟩ := Prod.mk.injEq .. ▸ h
            obtain rfl : u2 = uid := by simpa using h1
            subst h2
            simpa using lookupCache_append_self st.cache p u2 hl
          · rw [if_neg hsend] at h; exact absurd h (by simp)
  · obtain ⟨h1, h2⟩ := Prod.mk.injEq .. ▸ h
    obtain rfl : u = uid := by simpa using h1
    subst h2
    exact hl

/-- C7: an upload request for a path already in the cache returns the
cached reference with no remote call and no state change at all; the
cache only ever grows by appending; a successful upload enters the
cache; hence a second request for a path whose upload succeeded returns
the same reference and changes nothing. -/
theorem upload_cache_idempotent :
    (∀ (env : MigEnv) (st : MSt) (p uid : String),
      lookupCache st.cache p = some uid → uploadToNotion env st p = (some uid, st))
    ∧ (∀ (env : MigEnv) (st : MSt) (p : String),
      ∃ tail, (uploadToNotion env st p).2.cache = st.cache ++ tail)
    ∧ (∀ (env : MigEnv) (st : MSt) (p uid : String) (st' : MSt),
      uploadToNotion env st p = (some uid, st') → lookupCache st'.cache p = some uid)
    ∧ (∀ (env : MigEnv) (st : MSt) (p uid : String) (st' : MSt),
      uploadToNotion env st p = (some uid, st') → uploadToNotion env st' p = (some uid, st')) :=
  ⟨upload_cached, upload_cache_extends, upload_success_caches,
   fun env st p uid st' h => upload_cached env st' p uid (upload_success_caches env st p uid st' h)⟩

theorem upload_cache_idempotent_witness :
    lookupCache wCacheSt.cache "p" = some "u0"
    ∧ uploadToNotion wMigEnv wCacheSt "p" = (some "u0", wCacheSt)
    ∧ uploadToNotion wUpEnv wM0 "q"
        = (some "u1", ⟨2, [("q", "u1")], [UEvent.ucreate "q", UEvent.usend "q"], 0⟩)
    ∧ lookupCache (⟨2, [("q", "u1")], [UEvent.ucreate "q", UEvent.usend "q"], 0⟩ : MSt).cache "q"
        = some "u1"
    ∧ uploadToNotion wUpEnv ⟨2, [("q", "u1")], [UEvent.ucreate "q", UEvent.usend "q"], 0⟩ "q"
        = (some "u1", ⟨2, [("q", "u1")], [UEvent.ucreate "q", UEvent.usend "q"], 0⟩) := by
  refine ⟨rfl, ?_, rfl, ?_, ?_⟩
  · exact upload_cache_idempotent.1 wMigEnv wCacheSt "p" "u0" rfl
  · exact upload_cache_idempotent.2.2.1 wUpEnv wM0 "q" "u1" _ rfl
  · exact upload_cache_idempotent.2.2.2 wUpEnv wM0 "q" "u1" _ rfl

/-! ### C9 -/

/-- C9 (counterexample): a database capture in which the cancel callback
reports true from remote-call time 3 onward, yet the entry-block walker
fetches a second page of children at time 3 (its pagination loop has no
checkpoint), the capture completes without raising, and both files are
written. -/
theorem db_capture_fetches_after_cancel :
    (dumpDatabaseTree cexDbEnv 20 "db").2.1 = Except.ok ()
    ∧ (dumpDatabaseTree cexDbEnv 20 "db").1.length = 2
    ∧ (dumpDatabaseTree cexDbEnv 20 "db").2.2.fetchLog = [("e1", 2), ("e1", 3)]
    ∧ cancelNow cexDbEnv 3 = true :=
  ⟨rfl, rfl, rfl, rfl⟩

theorem pagesOf_eq (envA envB : DumpEnv) (h : envA.pages = envB.pages) (p : String) :
    pagesOf envA p = pagesOf envB p := by
  unfold pagesOf
  rw [h]

theorem entryRun_env_agnostic : ∀ (fuel : Nat) (envA envB : DumpEnv) (c : ECall) (st : DSt),
    envA.pages = envB.pages → envA.relDir = envB.relDir →
    entryRun envA fuel c st = entryRun envB fuel c st := by
  intro fuel
  induction fuel with
  | zero => intro envA envB c st _ _; rfl
  | succ fuel ih =>
    intro envA envB c st h1 h2
    have ih2 : ∀ (c : ECall) (st : DSt), entryRun envA fuel c st = entryRun envB fuel c st :=
      fun c st => ih envA envB c st h1 h2
    cases c with
    | entry p =>
      simp only [entryRun, ih2, pagesOf_eq envA envB h1]
    | epageLoop p pgs =>
      cases pgs with
      | nil => rfl
      | cons pg rest => simp only [entryRun, ih2]
    | eblockLoop p bs =>
      cases bs with
      | nil => rfl
      | cons b rest => simp only [entryRun, ih2, h2]

theorem dumpRun_fetchLog_lt : ∀ (fuel : Nat) (env : DumpEnv) (c : DCall) (st : DSt),
    (∀ e ∈ st.fetchLog, e.2 < env.cancelFrom) →
    ∀ e ∈ ((dumpRun env fuel c st).2).fetchLog, e.2 < env.cancelFrom := by
  intro fuel
  induction fuel with
  | zero => intro env c st h; exact h
  | succ fuel ih =>
    intro env c st h
    cases c with
    | walk p =>
      simp only [dumpRun]
      rcases hr : dumpRun env fuel (.pageLoop p (pagesOf env p)) st with ⟨er, st1⟩
      have h1 := ih env (.pageLoop p (pagesOf env p)) st h
      rw [hr] at h1
      cases er with
      | error e2 => exact h1
      | ok r =>
        rcases r with ⟨snaps, dls⟩
        dsimp only
        by_cases hd : dls.all env.downloadOk
        · rw [if_pos hd]; exact h1
        · rw [if_neg hd]; exact h1
    | pageLoop p pgs =>
      cases pgs with
      | nil => exact h
      | cons pg rest =>
        simp only [dumpRun]
        by_cases hc : cancelNow env st.fc
        · rw [if_pos hc]; exact h
        · rw [if_neg hc]
          have hfc : st.fc < env.cancelFrom := by
            unfold cancelNow at hc
            simpa using hc
          have hst1 : ∀ e ∈ (st.fetchLog ++ [(p, st.fc)]), e.2 < env.cancelFrom := by
            intro e he
            rcases List.mem_append.mp he with he | he
            · exact h e he
            · rcases List.mem_singleton.mp he with rfl
              exact hfc
          rcases hb : dumpRun env fuel (.blockLoop p pg)
              { st with fc := st.fc + 1, fetchLog := st.fetchLog ++ [(p, st.fc)] } with ⟨er1, st2⟩
          have h2 := ih env (.blockLoop p pg)
              { st with fc := st.fc + 1, fetchLog := st.fetchLog ++ [(p, st.fc)] } hst1
          rw [hb] at h2
          cases er1 with
          | error e1 => exact h2
          | ok r1 =>
            rcases r1 with ⟨s1, d1⟩
            dsimp only
            rcases hp : dumpRun env fuel (.pageLoop p rest) st2 with ⟨er2, st3⟩
            have h3 := ih env (.pageLoop p rest) st2 h2
            rw [hp] at h3
            cases er2 with
            | error e2 => exact h3
            | ok r2 => rcases r2 with ⟨s2, d2⟩; exact h3
    | blockLoop p bs =>
      cases bs with
      | nil => exact h
      | cons b rest =>
        simp only [dumpRun]
        rcases hk : (if b.hasChildren then dumpRun env fuel (.walk b.id) st
            else (Except.ok ([], []), st)) with ⟨erk, st1⟩
        have h1 : ∀ e ∈ st1.fetchLog, e.2 < env.cancelFrom := by
          by_cases hbc : b.hasChildren
          · rw [if_pos hbc] at hk
            have := ih env (.walk b.id) st h
            rw [hk] at this
            exact this
          · rw [if_neg hbc] at hk
            obtain ⟨h1', h2'⟩ := Prod.mk.injEq .. ▸ hk
            rw [← h2']
            exact h
        cases erk with
        | error ek => exact h1
        | ok rk =>
          rcases rk with ⟨kids, dk⟩
          dsimp only
          rcases hrest : dumpRun env fuel (.blockLoop p rest)
              { st1 with manifest := st1.manifest ++ [⟨b.id, b.btype, b.hasChildren,
                if b.btype ∈ assetTypes then
                  match blockUrl b with
                  | some u => [mkFileRec env.relDir b.id u]
                  | none => []
                else []⟩] } with ⟨er2, st3⟩
          have h3 := ih env (.blockLoop p rest)
              { st1 with manifest := st1.manifest ++ [⟨b.id, b.btype, b.hasChildren,
                if b.btype ∈ assetTypes then
                  match blockUrl b with
                  | some u => [mkFileRec env.relDir b.id u]
                  | none => []
                else []⟩] } h1
          rw [hrest] at h3
          cases er2 with
          | error e2 => exact h3
          | ok r2 => rcases r2 with ⟨s2, d2⟩; exact h3

/-- C9 (amended): during a page capture the cancel callback is checked
once per pagination round of walk_children and no children page is ever
fetched at or after the moment the callback reports canceled; during a
database capture the callback is checked per entry-query round and per
entry, but _process_entry_blocks performs no cancellation check at all —
its entire run is independent of when the cancel event is set — so
children pages can still be fetched after the callback reports canceled
(see the counterexample). -/
theorem capture_cancel_checkpoints :
    (∀ (env : DumpEnv) (fuel : Nat) (rootId : String),
      ∀ e ∈ (dumpPageTree env fuel rootId).2.2.fetchLog, e.2 < env.cancelFrom)
    ∧ (∀ (env : DumpEnv) (a b fuel : Nat) (c : ECall) (st : DSt),
      entryRun { env with cancelFrom := a } fuel c st
        = entryRun { env with cancelFrom := b } fuel c st) := by
  constructor
  · intro env fuel rootId
    unfold dumpPageTree
    rcases hw : dumpRun env fuel (.walk rootId) ⟨1, [], []⟩ with ⟨er, st⟩
    have h1 := dumpRun_fetchLog_lt fuel env (.walk rootId) ⟨1, [], []⟩ (by simp)
    rw [hw] at h1
    cases er with
    | error e2 => simpa [hw] using h1
    | ok r => rcases r with ⟨kids, dls⟩; simpa [hw] using h1
  · intro env a b fuel c st
    exact entryRun_env_agnostic fuel _ _ c st rfl rfl

theorem capture_cancel_checkpoints_witness :
    ("r", 1) ∈ (dumpPageTree wDumpEnv 10 "r").2.2.fetchLog
    ∧ 1 < wDumpEnv.cancelFrom
    ∧ entryRun { cexDbEnv with cancelFrom := 0 } 10 (.entry "e1") wSt0
        = entryRun { cexDbEnv with cancelFrom := 1000 } 10 (.entry "e1") wSt0 :=
  ⟨by decide, capture_cancel_checkpoints.1 wDumpEnv 10 "r" ("r", 1) (by decide),
   capture_cancel_checkpoints.2 cexDbEnv 0 1000 10 (.entry "e1") wSt0⟩

/-! ### Materialization trace helpers -/

theorem submittedIds_append : ∀ (a b : List LEvent),
    submittedIds (a ++ b) = submittedIds a ++ submittedIds b := by
  intro a b
  induction a with
  | nil => rfl
  | cons e rest ih =>
    cases e with
    | batchTry ids pls ok => cases ok <;> simp [submittedIds, ih]
    | single i c => simp [submittedIds, ih]
    | pageCreate i c => simp [submittedIds, ih]
    | descend i u => simp [submittedIds, ih]

theorem chunksOfAux_flatten {α : Type} : ∀ (fuel k : Nat) (l : List α),
    l.length ≤ fuel → 1 ≤ k → (chunksOfAux fuel k l).flatten = l := by
  intro fuel
  induction fuel with
  | zero =>
    intro k l hl _
    have : l = [] := List.eq_nil_of_length_eq_zero (Nat.le_zero.mp hl)
    subst this
    rfl
  | succ fuel ih =>
    intro k l hl hk
    cases l with
    | nil => rfl
    | cons x xs =>
      simp only [chunksOfAux, List.flatten_cons]
      rw [ih k ((x :: xs).drop k) ?_ hk]
      · exact List.take_append_drop k (x :: xs)
      · rw [List.length_drop]
        simp only [List.length_cons] at hl ⊢
        omega

theorem chunksOf_flatten {α : Type} (k : Nat) (l : List α) (hk : 1 ≤ k) :
    (chunksOf k l).flatten = l :=
  chunksOfAux_flatten l.length k l (le_refl _) hk

theorem chunksOfAux_len {α : Type} : ∀ (fuel k : Nat) (l : List α) (c : List α),
    c ∈ chunksOfAux fuel k l → c.length ≤ k := by
  intro fuel
  induction fuel with
  | zero => intro k l c hc; simp [chunksOfAux] at hc
  | succ fuel ih =>
    intro k l c hc
    cases l with
    | nil => simp [chunksOfAux] at hc
    | cons x xs =>
      simp only [chunksOfAux] at hc
      rcases List.mem_cons.mp hc with rfl | hc
      · exact List.length_take_le k (x :: xs)
      · exact ih k ((x :: xs).drop k) c hc

theorem fallbackChunk_spec (env : MigEnv) (parent : String) :
    ∀ (chunk : List SNode) (st : MSt) evs cs st',
    fallbackChunk env parent chunk st = .ok (evs, cs, st') →
    evs = List.zipWith (fun n c => LEvent.single n.id c) chunk cs
    ∧ cs.length = chunk.length := by
  intro chunk
  induction chunk with
  | nil =>
    intro st evs cs st' h
    simp only [fallbackChunk] at h
    obtain ⟨h1, h2, h3⟩ : [] = evs ∧ [] = cs ∧ st = st' := by
      simpa using h
    subst h1; subst h2
    simp
  | cons n ns ih =>
    intro st evs cs st' h
    simp only [fallbackChunk] at h
    by_cases hc : env.cancel st.t = true
    · rw [if_pos hc] at h; exact absurd h (by simp)
    · rw [if_neg hc] at h
      rcases hpl : nodeToBlockPayload env st n with ⟨pl, st1⟩
      rw [hpl] at h
      dsimp only at h
      rcases hfb : fallbackChunk env parent ns { st1 with t := st1.t + 1 } with hfe | ⟨evs2, cs2, st3⟩
      · rw [hfb] at h; exact absurd h (by simp)
      · rw [hfb] at h
        obtain ⟨h1, h2, h3⟩ :
            LEvent.single n.id (match env.append st1.t parent [pl] with
              | none => none
              | some rs => rs.headD none) :: evs2 = evs
            ∧ (match env.append st1.t parent [pl] with
              | none => none
              | some rs => rs.headD none) :: cs2 = cs
            ∧ st3 = st' := by
          simpa using h
        subst h1; subst h2
        obtain ⟨ih1, ih2⟩ := ih { st1 with t := st1.t + 1 } evs2 cs2 st3 hfb
        constructor
        · simp [List.zipWith, ih1]
        · simp [ih2]

theorem submittedIds_zip_single : ∀ (chunk : List SNode) (cs : List (Option String)),
    cs.length = chunk.length →
    submittedIds (List.zipWith (fun n c => LEvent.single n.id c) chunk cs)
      = chunk.map SNode.id := by
  intro chunk
  induction chunk with
  | nil => intro cs _; simp [submittedIds]
  | cons n ns ih =>
    intro cs h
    cases cs with
    | nil => simp at h
    | cons c cs' =>
      simp only [List.zipWith, List.map_cons, submittedIds]
      rw [ih cs' (by simpa using h)]

theorem migRun_nodesLoop_events : ∀ (fuel : Nat) (env : MigEnv) (parent : String)
    (ns : List SNode) (rs : List (Option String)) (st : MSt) evs st',
    migRun env fuel (.nodesLoop parent ns rs) st = .ok (evs, st') →
    evs = descSpec parent ns rs := by
  intro fuel
  induction fuel with
  | zero => intro env parent ns rs st evs st' h; exact absurd h (by simp [migRun])
  | succ fuel ih =>
    intro env parent ns rs st evs st' h
    cases ns with
    | nil =>
      simp only [migRun] at h
      obtain ⟨h1, _⟩ : [] = evs ∧ st = st' := by simpa using h
      subst h1
      rfl
    | cons n rest =>
      simp only [migRun] at h
      by_cases hq : (n.hasChildren && !n.children.isEmpty) = true
      · rw [if_pos hq] at h
        rcases hlv : migRun env fuel
            (.level ((rs.headD none).getD parent) n.children []) { st with done := st.done + 1 }
            with hle | ⟨pr, st2⟩
        · rw [hlv] at h; exact absurd h (by simp)
        · rw [hlv] at h
          dsimp only at h
          rcases hnx : migRun env fuel (.nodesLoop parent rest rs.tail) st2 with hne | ⟨e2, st3⟩
          · rw [hnx] at h; exact absurd h (by simp)
          · rw [hnx] at h
            obtain ⟨h1, _⟩ :
                LEvent.descend n.id ((rs.headD none).getD parent) :: e2 = evs ∧ st3 = st' := by
              simpa using h
            subst h1
            rw [ih env parent rest rs.tail st2 e2 st3 hnx]
            simp only [descSpec]
            rw [if_pos hq]
      · rw [if_neg hq] at h
        rcases hnx : migRun env fuel (.nodesLoop parent rest rs.tail)
            { st with done := st.done + 1 } with hne | ⟨e2, st2⟩
        · rw [hnx] at h; exact absurd h (by simp)
        · rw [hnx] at h
          obtain ⟨h1, _⟩ : e2 = evs ∧ st2 = st' := by simpa using h
          subst h1
          rw [ih env parent rest rs.tail _ e2 st2 hnx]
          simp only [descSpec]
          rw [if_neg hq]

theorem descSpec_submitted : ∀ (parent : String) (ns : List SNode) (rs : List (Option String)),
    submittedIds (descSpec parent ns rs) = [] := by
  intro parent ns
  induction ns with
  | nil => intro rs; rfl
  | cons n rest ih =>
    intro rs
    simp only [descSpec]
    by_cases hq : (n.hasChildren && !n.children.isEmpty) = true
    · rw [if_pos hq]; simp [submittedIds, ih]
    · rw [if_neg hq]; exact ih rs.tail

theorem descSpec_length : ∀ (parent : String) (ns : List SNode) (rs : List (Option String)),
    (descSpec parent ns rs).length
      = (ns.filter (fun n => n.hasChildren && !n.children.isEmpty)).length := by
  intro parent ns
  induction ns with
  | nil => intro rs; rfl
  | cons n rest ih =>
    intro rs
    simp only [descSpec, List.filter_cons]
    by_cases hq : (n.hasChildren && !n.children.isEmpty) = true
    · simp [hq, ih]
    · simp [hq, ih]

theorem descSpec_fallback : ∀ (parent : String) (ns : List SNode)
    (rs : List (Option String)) (i : Nat) (n : SNode),
    ns[i]? = some n → (n.hasChildren && !n.children.isEmpty) = true →
    rs.getD i none = none →
    LEvent.descend n.id parent ∈ descSpec parent ns rs := by
  intro parent ns
  induction ns with
  | nil => intro rs i n h; simp at h
  | cons m rest ih =>
    intro rs i n hget hq hcreated
    cases i with
    | zero =>
      obtain rfl : m = n := by simpa using hget
      have hh : rs.headD none = none := by
        cases rs with
        | nil => rfl
        | cons r rs' => simpa [List.getD] using hcreated
      simp only [descSpec, hh]
      rw [if_pos hq]
      simp
    | succ i =>
      have hmem : LEvent.descend n.id parent ∈ descSpec parent rest rs.tail := by
        apply ih rs.tail i n (by simpa using hget) hq
        cases rs with
        | nil => simp [List.getD]
        | cons r rs' => simpa [List.getD] using hcreated
      simp only [descSpec]
      by_cases hq2 : (m.hasChildren && !m.children.isEmpty) = true
      · rw [if_pos hq2]; exact List.mem_cons_of_mem _ hmem
      · rw [if_neg hq2]; exact hmem

theorem migRun_submitted : ∀ (fuel : Nat) (env : MigEnv) (c : MCall) (st : MSt) evs st',
    migRun env fuel c st = .ok (evs, st') → submittedIds evs = mcallIds c := by
  intro fuel
  induction fuel with
  | zero => intro env c st evs st' h; exact absurd h (by simp [migRun])
  | succ fuel ih =>
    intro env c st evs st' h
    cases c with
    | level parent pending batch =>
      cases pending with
      | nil =>
        simp only [migRun] at h
        by_cases hb : batch.isEmpty
        · rw [if_pos hb] at h
          obtain ⟨h1, _⟩ : [] = evs ∧ st = st' := by simpa using h
          subst h1
          simp [mcallIds, submittedIds, List.isEmpty_iff.mp hb]
        · rw [if_neg hb] at h
          have hs := ih env (.chunks parent (chunksOf 100 batch)) st evs st' h
          rw [hs]
          simp only [mcallIds]
          rw [chunksOf_flatten 100 batch (by omega)]
          simp
      | cons n rest =>
        simp only [migRun] at h
        by_cases hcan : env.cancel st.t = true
        · rw [if_pos hcan] at h; exact absurd h (by simp)
        · rw [if_neg hcan] at h
          by_cases hpage : n.btype = "child_page"
          · rw [if_pos hpage] at h
            by_cases hb : batch.isEmpty
            · rw [if_pos hb] at h
              dsimp only at h
              rcases hp2 : migRun env fuel (.page parent n) st with hpe | ⟨e2, st2⟩
              · rw [hp2] at h; exact absurd h (by simp)
              · rw [hp2] at h
                dsimp only at h
                rcases hlv : migRun env fuel (.level parent rest []) st2 with hle | ⟨e3, st3⟩
                · rw [hlv] at h; exact absurd h (by simp)
                · rw [hlv] at h
                  obtain ⟨h1, _⟩ : [] ++ (e2 ++ e3) = evs ∧ st3 = st' := by simpa using h
                  subst h1
                  rw [submittedIds_append, submittedIds_append,
                      ih env (.page parent n) st e2 st2 hp2,
                      ih env (.level parent rest []) st2 e3 st3 hlv]
                  simp [mcallIds, submittedIds, List.isEmpty_iff.mp hb]
            · rw [if_neg hb] at h
              rcases hfl : migRun env fuel (.chunks parent (chunksOf 100 batch)) st
                  with hfe | ⟨e1, st1⟩
              · rw [hfl] at h; exact absurd h (by simp)
              · rw [hfl] at h
                dsimp only at h
                rcases hp2 : migRun env fuel (.page parent n) st1 with hpe | ⟨e2, st2⟩
                · rw [hp2] at h; exact absurd h (by simp)
                · rw [hp2] at h
                  dsimp only at h
                  rcases hlv : migRun env fuel (.level parent rest []) st2 with hle | ⟨e3, st3⟩
                  · rw [hlv] at h; exact absurd h (by simp)
                  · rw [hlv] at h
                    obtain ⟨h1, _⟩ : e1 ++ (e2 ++ e3) = evs ∧ st3 = st' := by simpa using h
                    subst h1
                    rw [submittedIds_append, submittedIds_append,
                        ih env (.chunks parent (chunksOf 100 batch)) st e1 st1 hfl,
                        ih env (.page parent n) st1 e2 st2 hp2,
                        ih env (.level parent rest []) st2 e3 st3 hlv]
                    simp only [mcallIds]
                    rw [chunksOf_flatten 100 batch (by omega)]
                    simp
          · rw [if_neg hpage] at h
            have hs := ih env (.level parent rest (batch ++ [n])) st evs st' h
            rw [hs]
            simp [mcallIds]
    | chunks parent cs =>
      cases cs with
      | nil =>
        simp only [migRun] at h
        obtain ⟨h1, _⟩ : [] = evs ∧ st = st' := by simpa using h
        subst h1
        rfl
      | cons c rest =>
        simp only [migRun] at h
        by_cases hcan : env.cancel st.t = true
        · rw [if_pos hcan] at h; exact absurd h (by simp)
        · rw [if_neg hcan] at h
          rcases hcr : migRun env fuel (.chunkRun parent c) st with hce | ⟨e1, st1⟩
          · rw [hcr] at h; exact absurd h (by simp)
          · rw [hcr] at h
            dsimp only at h
            rcases hrest : migRun env fuel (.chunks parent rest) st1 with hre | ⟨e2, st2⟩
            · rw [hrest] at h; exact absurd h (by simp)
            · rw [hrest] at h
              obtain ⟨h1, _⟩ : e1 ++ e2 = evs ∧ st2 = st' := by simpa using h
              subst h1
              rw [submittedIds_append, ih env (.chunkRun parent c) st e1 st1 hcr,
                  ih env (.chunks parent rest) st1 e2 st2 hrest]
              simp [mcallIds]
    | chunkRun parent chunk =>
      simp only [migRun] at h
      rcases hcv : convertChunk env chunk st with ⟨pls, st1⟩
      rw [hcv] at h
      dsimp only at h
      rcases happ : env.append st1.t parent pls with _ | results
      · rw [happ] at h
        rcases hfb : fallbackChunk env parent chunk { st1 with t := st1.t + 1 }
            with hfe | ⟨sevs, rs2, st3⟩
        · rw [hfb] at h; exact absurd h (by simp)
        · rw [hfb] at h
          dsimp only at h
          rcases hnl : migRun env fuel (.nodesLoop parent chunk rs2) st3 with hne | ⟨e1, st4⟩
          · rw [hnl] at h; exact absurd h (by simp)
          · rw [hnl] at h
            obtain ⟨h1, _⟩ :
                LEvent.batchTry (chunk.map SNode.id) pls false :: (sevs ++ e1) = evs
                ∧ st4 = st' := by simpa using h
            subst h1
            obtain ⟨hz, hlen⟩ := fallbackChunk_spec env parent chunk _ sevs rs2 st3 hfb
            simp only [submittedIds, submittedIds_append]
            rw [hz, submittedIds_zip_single chunk rs2 hlen,
                ih env (.nodesLoop parent chunk rs2) st3 e1 st4 hnl]
            simp [mcallIds]
      · rw [happ] at h
        dsimp only at h
        rcases hnl : migRun env fuel (.nodesLoop parent chunk results)
            { st1 with t := st1.t + 1 } with hne | ⟨e1, st3⟩
        · rw [hnl] at h; exact absurd h (by simp)
        · rw [hnl] at h
          obtain ⟨h1, _⟩ :
              LEvent.batchTry (chunk.map SNode.id) pls true :: e1 = evs ∧ st3 = st' := by
            simpa using h
          subst h1
          simp only [submittedIds]
          rw [ih env (.nodesLoop parent chunk results) _ e1 st3 hnl]
          simp [mcallIds]
    | nodesLoop parent ns rs =>
      cases ns with
      | nil =>
        simp only [migRun] at h
        obtain ⟨h1, _⟩ : [] = evs ∧ st = st' := by simpa using h
        subst h1
        rfl
      | cons n rest =>
        simp only [migRun] at h
        by_cases hq : (n.hasChildren && !n.children.isEmpty) = true
        · rw [if_pos hq] at h
          rcases hlv : migRun env fuel (.level ((rs.headD none).getD parent) n.children [])
              { st with done := st.done + 1 } with hle | ⟨pr, st2⟩
          · rw [hlv] at h; exact absurd h (by simp)
          · rw [hlv] at h
            dsimp only at h
            rcases hnx : migRun env fuel (.nodesLoop parent rest rs.tail) st2
                with hne | ⟨e2, st3⟩
            · rw [hnx] at h; exact absurd h (by simp)
            · rw [hnx] at h
              obtain ⟨h1, _⟩ :
                  LEvent.descend n.id ((rs.headD none).getD parent) :: e2 = evs
                  ∧ st3 = st' := by simpa using h
              subst h1
              simp only [submittedIds]
              rw [ih env (.nodesLoop parent rest rs.tail) st2 e2 st3 hnx]
              rfl
        · rw [if_neg hq] at h
          rcases hnx : migRun env fuel (.nodesLoop parent rest rs.tail)
              { st with done := st.done + 1 } with hne | ⟨e2, st2⟩
          · rw [hnx] at h; exact absurd h (by simp)
          · rw [hnx] at h
            obtain ⟨h1, _⟩ : e2 = evs ∧ st2 = st' := by simpa using h
            subst h1
            rw [ih env (.nodesLoop parent rest rs.tail) _ e2 st2 hnx]
            rfl
    | page parent n =>
      simp only [migRun] at h
      by_cases hcan : env.cancel st.t = true
      · rw [if_pos hcan] at h; exact absurd h (by simp)
      · rw [if_neg hcan] at h
        rcases hcp : env.createPage st.t parent (n.pageTitle.getD "Untitled Page")
            with _ | cido
        · rw [hcp] at h
          obtain ⟨h1, _⟩ : [LEvent.pageCreate n.id none] = evs ∧ _ = st' := by simpa using h
          subst h1
          rfl
        · rw [hcp] at h
          dsimp only at h
          cases cido with
          | some cid =>
            dsimp only at h
            by_cases hq : (n.hasChildren && !n.children.isEmpty) = true
            · rw [if_pos hq] at h
              rcases hlv : migRun env fuel (.level cid n.children [])
                  { st with t := st.t + 1, done := st.done + 1 } with hle | ⟨pr, st2⟩
              · rw [hlv] at h; exact absurd h (by simp)
              · rw [hlv] at h
                obtain ⟨h1, _⟩ : [LEvent.pageCreate n.id (some cid)] = evs ∧ st2 = st' := by
                  simpa using h
                subst h1
                rfl
            · rw [if_neg hq] at h
              obtain ⟨h1, _⟩ : [LEvent.pageCreate n.id (some cid)] = evs ∧ _ = st' := by
                simpa using h
              subst h1
              rfl
          | none =>
            dsimp only at h
            obtain ⟨h1, _⟩ : [LEvent.pageCreate n.id none] = evs ∧ _ = st' := by simpa using h
            subst h1
            rfl

theorem dumpRun_spec : ∀ (fuel : Nat) (env : DumpEnv) (c : DCall) (st : DSt)
    (res : List SNode × List String) (st' : DSt),
    dumpRun env fuel c st = (.ok res, st') →
    res.1.map SNode.id = dcallIds env c
    ∧ (∀ n ∈ res.1, TreeOK env n)
    ∧ ∃ dm, st'.manifest = st.manifest ++ dm
        ∧ (res.1.map SNode.id).Sublist (dm.map ManNode.id) := by
  intro fuel
  induction fuel with
  | zero => intro env c st res st' h; exact absurd h (by simp [dumpRun])
  | succ fuel ih =>
    intro env c st res st' h
    cases c with
    | walk p =>
      simp only [dumpRun] at h
      rcases hr : dumpRun env fuel (.pageLoop p (pagesOf env p)) st with ⟨er, st1⟩
      rw [hr] at h
      cases er with
      | error e2 => exact absurd h (by simp)
      | ok r =>
        rcases r with ⟨snaps, dls⟩
        dsimp only at h
        by_cases hd : dls.all env.downloadOk = true
        · rw [if_pos hd] at h
          obtain ⟨h1, h2⟩ := Prod.mk.injEq .. ▸ h
          obtain rfl : res = (snaps, []) := by simpa using h1.symm
          subst h2
          obtain ⟨hi, ht, hm⟩ := ih env (.pageLoop p (pagesOf env p)) st (snaps, dls) st1 hr
          exact ⟨hi, ht, hm⟩
        · rw [if_neg hd] at h
          exact absurd h (by simp)
    | pageLoop p pgs =>
      cases pgs with
      | nil =>
        simp only [dumpRun] at h
        obtain ⟨h1, h2⟩ := Prod.mk.injEq .. ▸ h
        obtain rfl : res = ([], []) := by simpa using h1.symm
        subst h2
        refine ⟨rfl, by simp, [], by simp, by simp⟩
      | cons pg rest =>
        simp only [dumpRun] at h
        by_cases hc : cancelNow env st.fc = true
        · rw [if_pos hc] at h; exact absurd h (by simp)
        · rw [if_neg hc] at h
          rcases hb : dumpRun env fuel (.blockLoop p pg)
              { st with fc := st.fc + 1, fetchLog := st.fetchLog ++ [(p, st.fc)] }
              with ⟨er1, st2⟩
          rw [hb] at h
          cases er1 with
          | error e1 => exact absurd h (by simp)
          | ok r1 =>
            rcases r1 with ⟨s1, d1⟩
            dsimp only at h
            rcases hp : dumpRun env fuel (.pageLoop p rest) st2 with ⟨er2, st3⟩
            rw [hp] at h
            cases er2 with
            | error e2 => exact absurd h (by simp)
            | ok r2 =>
              rcases r2 with ⟨s2, d2⟩
              obtain ⟨h1, h2⟩ := Prod.mk.injEq .. ▸ h
              obtain rfl : res = (s1 ++ s2, d1 ++ d2) := by simpa using h1.symm
              subst h2
              obtain ⟨hi1, ht1, dm1, hm1, hs1⟩ :=
                ih env (.blockLoop p pg) _ (s1, d1) st2 hb
              obtain ⟨hi2, ht2, dm2, hm2, hs2⟩ :=
                ih env (.pageLoop p rest) st2 (s2, d2) st3 hp
              refine ⟨?_, ?_, dm1 ++ dm2, ?_, ?_⟩
              · simp only [dcallIds] at hi1 hi2 ⊢
                simp [List.flatten_cons, hi1, hi2]
              · intro n hn
                rcases List.mem_append.mp hn with hn | hn
                · exact ht1 n hn
                · exact ht2 n hn
              · simp only at hm1
                rw [hm2, hm1]
                simp
              · rw [List.map_append, List.map_append]
                exact List.Sublist.append hs1 hs2
    | blockLoop p bs =>
      cases bs with
      | nil =>
        simp only [dumpRun] at h
        obtain ⟨h1, h2⟩ := Prod.mk.injEq .. ▸ h
        obtain rfl : res = ([], []) := by simpa using h1.symm
        subst h2
        refine ⟨rfl, by simp, [], by simp, by simp⟩
      | cons b rest =>
        simp only [dumpRun] at h
        rcases hk : (if b.hasChildren = true then dumpRun env fuel (.walk b.id) st
            else (Except.ok ([], []), st)) with ⟨erk, st1⟩
        rw [hk] at h
        cases erk with
        | error ek => exact absurd h (by simp)
        | ok rk =>
          rcases rk with ⟨kids, dk⟩
          dsimp only at h
          rcases hrest : dumpRun env fuel (.blockLoop p rest)
              { st1 with manifest := st1.manifest ++ [⟨b.id, b.btype, b.hasChildren,
                if b.btype ∈ assetTypes then
                  match blockUrl b with
                  | some u => [mkFileRec env.relDir b.id u]
                  | none => []
                else []⟩] } with ⟨er2, st3⟩
          rw [hrest] at h
          cases er2 with
          | error e2 => exact absurd h (by simp)
          | ok r2 =>
            rcases r2 with ⟨s2, d2⟩
            obtain ⟨h1, h2⟩ := Prod.mk.injEq .. ▸ h
            obtain rfl : res = (SNode.mk b.id b.btype b.hasChildren b.caption b.pageTitle kids :: s2,
                (if b.btype ∈ assetTypes then
                  match blockUrl b with
                  | some u => [u]
                  | none => []
                else []) ++ d2) := by simpa using h1.symm
            subst h2
            have hkids : (b.hasChildren = true →
                  kids.map SNode.id = (pagesOf env b.id).flatten.map RawBlock.id)
                ∧ (∀ n ∈ kids, TreeOK env n)
                ∧ (b.hasChildren = false → kids = [])
                ∧ ∃ dmk, st1.manifest = st.manifest ++ dmk := by
              by_cases hbc : b.hasChildren = true
              · rw [if_pos hbc] at hk
                obtain ⟨hi, ht, dmk, hm, _⟩ := ih env (.walk b.id) st (kids, dk) st1 hk
                exact ⟨fun _ => hi, ht, fun hf => absurd hbc (by simp [hf]), dmk, hm⟩
              · rw [if_neg hbc] at hk
                obtain ⟨hk1, hk2⟩ := Prod.mk.injEq .. ▸ hk
                obtain ⟨rfl, rfl⟩ : kids = [] ∧ dk = [] := by
                  have h5 := hk1.symm
                  simp at h5
                  exact ⟨h5.1, h5.2⟩
                subst hk2
                exact ⟨fun hx => absurd hx hbc, by simp, fun _ => rfl, [], by simp⟩
            obtain ⟨hkid, hkok, hkemp, dmk, hmk⟩ := hkids
            obtain ⟨hi2, ht2, dm2, hm2, hs2⟩ :=
              ih env (.blockLoop p rest) _ (s2, d2) st3 hrest
            refine ⟨?_, ?_, dmk ++ ([⟨b.id, b.btype, b.hasChildren,
                if b.btype ∈ assetTypes then
                  match blockUrl b with
                  | some u => [mkFileRec env.relDir b.id u]
                  | none => []
                else []⟩] ++ dm2), ?_, ?_⟩
            · simp only [dcallIds] at hi2 ⊢
              simp [hi2, SNode.id]
            · intro n hn
              rcases List.mem_cons.mp hn with rfl | hn
              · refine TreeOK.mk b.id b.btype b.hasChildren b.caption b.pageTitle kids
                  hkid hkemp hkok
              · exact ht2 n hn
            · simp only at hm2
              rw [hm2, hmk]
              simp
            · simp only [List.map_append, List.map_cons, List.map_nil, SNode.id]
              have hcons : (b.id :: s2.map SNode.id).Sublist
                  (b.id :: dm2.map ManNode.id) := List.Sublist.cons₂ _ hs2
              exact hcons.trans (List.sublist_append_right _ _)

/-! ### C2 -/

/-- C2: sibling order is preserved end-to-end.  Capture side: a
completed walk returns children whose ids are exactly the concatenation
of the pagination responses for the parent in response order, the same
holds inside every returned subtree (TreeOK), and the ids of the
returned siblings appear in the manifest entries this walk added as a
subsequence in that same order.  Materialization side: a completed level
run submits the creation of exactly its source siblings, in sibling
order — regular runs batched in order, child pages created in place
between batches, a failed batch superseded by its in-order per-item
fallback. -/
theorem sibling_order_preserved :
    (∀ (env : DumpEnv) (fuel : Nat) (parent : String) (st : DSt)
        (res : List SNode × List String) (st' : DSt),
      dumpRun env fuel (.walk parent) st = (.ok res, st') →
      res.1.map SNode.id = (pagesOf env parent).flatten.map RawBlock.id
      ∧ (∀ n ∈ res.1, TreeOK env n)
      ∧ ∃ dm, st'.manifest = st.manifest ++ dm
          ∧ (res.1.map SNode.id).Sublist (dm.map ManNode.id))
    ∧ (∀ (env : MigEnv) (fuel : Nat) (parent : String) (cs : List SNode)
        (st : MSt) (evs : List LEvent) (st' : MSt),
      migRun env fuel (.level parent cs []) st = .ok (evs, st') →
      submittedIds evs = cs.map SNode.id) := by
  constructor
  · intro env fuel parent st res st' h
    exact dumpRun_spec fuel env (.walk parent) st res st' h
  · intro env fuel parent cs st evs st' h
    have hs := migRun_submitted fuel env (.level parent cs []) st evs st' h
    simpa [mcallIds] using hs

theorem sibling_order_preserved_witness :
    dumpRun wDumpEnv 10 (.walk "r") wSt0 = (.ok ([wSnapA, wSnapB], []), wStF)
    ∧ ([wSnapA, wSnapB].map SNode.id = (pagesOf wDumpEnv "r").flatten.map RawBlock.id
       ∧ (∀ n ∈ [wSnapA, wSnapB], TreeOK wDumpEnv n)
       ∧ ∃ dm, wStF.manifest = wSt0.manifest ++ dm
           ∧ ([wSnapA, wSnapB].map SNode.id).Sublist (dm.map ManNode.id))
    ∧ migRun wMigEnv 10 (.level "tgt" [wPara, wPage] []) wM0 = .ok (wEvs, wMF)
    ∧ submittedIds wEvs = [wPara, wPage].map SNode.id :=
  ⟨rfl, sibling_order_preserved.1 wDumpEnv 10 "r" wSt0 ([wSnapA, wSnapB], []) wStF rfl,
   rfl, sibling_order_preserved.2 wMigEnv 10 "tgt" [wPara, wPage] wM0 wEvs wMF rfl⟩

/-! ### C3 -/

/-- C3: runs of regular siblings are appended in chunks of at most 100;
when the batch append of a chunk fails entirely (its batchTry event
records failure) every node of the chunk is retried individually, in
chunk order, with some per-node created ids cs; the recursive descents
of the chunk are exactly descSpec over those ids — one descent for
precisely each node with a nonempty children list, regardless of whether
its individual retry succeeded — and a node whose created id is missing
descends under the current parent id rather than being dropped. -/
theorem chunk_failure_fallback :
    (∀ (l : List SNode) (c : List SNode), c ∈ chunksOf 100 l → c.length ≤ 100)
    ∧ (∀ (env : MigEnv) (fuel : Nat) (parent : String) (chunk : List SNode)
        (st : MSt) (evs : List LEvent) (st' : MSt) (ids : List String)
        (pls : List BlockPayload),
      migRun env fuel (.chunkRun parent chunk) st = .ok (evs, st') →
      evs.head? = some (.batchTry ids pls false) →
      ∃ cs, cs.length = chunk.length
        ∧ evs = LEvent.batchTry ids pls false
            :: (List.zipWith (fun n c => LEvent.single n.id c) chunk cs
                ++ descSpec parent chunk cs))
    ∧ (∀ (parent : String) (ns : List SNode) (rs : List (Option String)),
      (descSpec parent ns rs).length
        = (ns.filter (fun n => n.hasChildren && !n.children.isEmpty)).length)
    ∧ (∀ (parent : String) (ns : List SNode) (rs : List (Option String)) (i : Nat) (n : SNode),
      ns[i]? = some n → (n.hasChildren && !n.children.isEmpty) = true →
      rs.getD i none = none →
      LEvent.descend n.id parent ∈ descSpec parent ns rs) := by
  refine ⟨?_, ?_, descSpec_length, descSpec_fallback⟩
  · intro l c hc
    exact chunksOfAux_len l.length 100 l c hc
  · intro env fuel parent chunk st evs st' ids pls h hhead
    cases fuel with
    | zero => exact absurd h (by simp [migRun])
    | succ fuel =>
      simp only [migRun] at h
      rcases hcv : convertChunk env chunk st with ⟨pls0, st1⟩
      rw [hcv] at h
      dsimp only at h
      rcases happ : env.append st1.t parent pls0 with _ | results
      · rw [happ] at h
        rcases hfb : fallbackChunk env parent chunk { st1 with t := st1.t + 1 }
            with hfe | ⟨sevs, rs2, st3⟩
        · rw [hfb] at h; exact absurd h (by simp)
        · rw [hfb] at h
          dsimp only at h
          rcases hnl : migRun env fuel (.nodesLoop parent chunk rs2) st3 with hne | ⟨e1, st4⟩
          · rw [hnl] at h; exact absurd h (by simp)
          · rw [hnl] at h
            obtain ⟨h1, _⟩ :
                LEvent.batchTry (chunk.map SNode.id) pls0 false :: (sevs ++ e1) = evs
                ∧ st4 = st' := by simpa using h
            subst h1
            obtain ⟨rfl, rfl⟩ : chunk.map SNode.id = ids ∧ pls0 = pls := by
              simpa using hhead
            obtain ⟨hz, hlen⟩ := fallbackChunk_spec env parent chunk _ sevs rs2 st3 hfb
            refine ⟨rs2, hlen, ?_⟩
            rw [hz, migRun_nodesLoop_events fuel env parent chunk rs2 st3 e1 st4 hnl]
      · rw [happ] at h
        dsimp only at h
        rcases hnl : migRun env fuel (.nodesLoop parent chunk results)
            { st1 with t := st1.t + 1 } with hne | ⟨e1, st3⟩
        · rw [hnl] at h; exact absurd h (by simp)
        · rw [hnl] at h
          obtain ⟨h1, _⟩ :
              LEvent.batchTry (chunk.map SNode.id) pls0 true :: e1 = evs ∧ st3 = st' := by
            simpa using h
          subst h1
          exact absurd hhead (by simp)

theorem chunk_failure_fallback_witness :
    [wN1] ∈ chunksOf 100 [wN1]
    ∧ ([wN1] : List SNode).length ≤ 100
    ∧ migRun wFailEnv 10 (.chunkRun "par" [wN1, wN2]) wM0 = .ok (wC3evs, ⟨5, [], [], 3⟩)
    ∧ wC3evs.head? = some (.batchTry ["n1", "n2"] [wPl, wPl] false)
    ∧ (∃ cs, cs.length = ([wN1, wN2] : List SNode).length
        ∧ wC3evs = LEvent.batchTry ["n1", "n2"] [wPl, wPl] false
            :: (List.zipWith (fun n c => LEvent.single n.id c) [wN1, wN2] cs
                ++ descSpec "par" [wN1, wN2] cs))
    ∧ ([wN1, wN2] : List SNode)[1]? = some wN2
    ∧ (wN2.hasChildren && !wN2.children.isEmpty) = true
    ∧ ([none, none] : List (Option String)).getD 1 none = none
    ∧ LEvent.descend "n2" "par" ∈ descSpec "par" [wN1, wN2] [none, none] := by
  refine ⟨List.mem_singleton_self _, ?_, rfl, rfl, ?_, rfl, rfl, rfl, ?_⟩
  · exact chunk_failure_fallback.1 [wN1] [wN1] (List.mem_singleton_self _)
  · exact chunk_failure_fallback.2.1 wFailEnv 10 "par" [wN1, wN2] wM0 wC3evs
      ⟨5, [], [], 3⟩ ["n1", "n2"] [wPl, wPl] rfl rfl
  · exact chunk_failure_fallback.2.2.2 "par" [wN1, wN2] [none, none] 1 wN2 rfl rfl rfl

/-! ### C8 -/

/-- C8: an asset-bearing node whose upload cannot produce a reference —
absent from the asset map, a record without a local path, or an upload
that fails for any reason (missing on disk, over the size ceiling,
either upload call failing) — still yields a block payload, carrying no
file reference and only the caption (the existing caption, or one
holding the original filename when one is known).  In the end-to-end
setting of spec section 8 (two sibling blocks, empty asset map, appends
succeeding) the run appends both blocks in order, the image payload
degraded to the empty caption-only form, the service returns normally
and the runner records status done. -/
theorem asset_failure_degrades :
    (∀ (env : MigEnv) (st : MSt) (n : SNode),
      n.btype ∈ assetTypes →
      (∀ lp, (firstAsset env.amap n.id).localPath = some lp →
        (uploadToNotion env st lp).1 = none) →
      (nodeToBlockPayload env st n).1.fileRef = none
      ∧ (nodeToBlockPayload env st n).1.caption
          = captionWithOriginal n.caption (firstAsset env.amap n.id).original)
    ∧ migRun wC8Env 10 (.level "tgt" [wC8para, wC8img] []) wM0
        = .ok ([.batchTry ["p1", "i1"]
            [⟨"paragraph", none, []⟩, ⟨"image", none, []⟩] true], ⟨1, [], [], 2⟩)
    ∧ runnerOutcome
        ((migRun wC8Env 10 (.level "tgt" [wC8para, wC8img] []) wM0).map (fun _ => ()))
        false = JStatus.done := by
  refine ⟨?_, rfl, rfl⟩
  intro env st n hmem hup
  unfold nodeToBlockPayload
  rw [if_pos hmem]
  dsimp only
  rcases hlp : (firstAsset env.amap n.id).localPath with _ | lp
  · exact ⟨rfl, rfl⟩
  · exact ⟨hup lp hlp, rfl⟩

theorem asset_failure_degrades_witness :
    wC8img.btype ∈ assetTypes
    ∧ (firstAsset wC8fEnv.amap wC8img.id).localPath = some "f"
    ∧ (uploadToNotion wC8fEnv wM0 "f").1 = none
    ∧ (nodeToBlockPayload wC8fEnv wM0 wC8img).1.fileRef = none
    ∧ (nodeToBlockPayload wC8fEnv wM0 wC8img).1.caption
        = captionWithOriginal wC8img.caption (firstAsset wC8fEnv.amap wC8img.id).original
    ∧ (nodeToBlockPayload wC8fEnv wM0 wC8img).1.caption = ["img.png"] := by
  have hup : ∀ lp, (firstAsset wC8fEnv.amap wC8img.id).localPath = some lp →
      (uploadToNotion wC8fEnv wM0 lp).1 = none := by
    intro lp hlp
    have h2 : (some "f" : Option String) = some lp := hlp
    obtain rfl : lp = "f" := by simpa using h2.symm
    rfl
  have hmain := asset_failure_degrades.1 wC8fEnv wM0 wC8img (by decide) hup
  exact ⟨by decide, rfl, hup "f" rfl, hmain.1, hmain.2, rfl⟩

/-! ### C10 -/

theorem buildAssetMapGo_skip : ∀ (root : String) (nodes : List ManNode)
    (acc : List (String × List AssetInfo)) (k : String),
    k ∉ nodes.map ManNode.id →
    lookupAmap (buildAssetMapGo root nodes acc) k = lookupAmap acc k := by
  intro root nodes
  induction nodes with
  | nil => intro acc k _; rfl
  | cons n rest ih =>
    intro acc k h
    have hk : ¬ k = n.id := fun he => h (by simp [he])
    have hrest : k ∉ rest.map ManNode.id := fun he => h (by simp [he])
    simp only [buildAssetMapGo]
    by_cases hc : (decide (n.id = "") || n.files.isEmpty) = true
    · rw [if_pos hc]
      exact ih acc k hrest
    · rw [if_neg hc]
      rw [ih _ k hrest]
      unfold lookupAmap
      rw [List.find?_cons_of_neg _ (by simp; exact fun he => hk he.symm)]

theorem buildAssetMapGo_mem : ∀ (root : String) (nodes : List ManNode)
    (acc : List (String × List AssetInfo)) (n : ManNode),
    (nodes.map ManNode.id).Nodup → n ∈ nodes → ¬ n.id = "" → ¬ n.files.isEmpty = true →
    lookupAmap (buildAssetMapGo root nodes acc) n.id
      = some (n.files.map (toAssetInfo root)) := by
  intro root nodes
  induction nodes with
  | nil => intro acc n _ hmem; simp at hmem
  | cons m rest ih =>
    intro acc n hnd hmem hid hfiles
    rw [List.map_cons] at hnd
    have hnd' := List.nodup_cons.mp hnd
    rcases List.mem_cons.mp hmem with rfl | hmem
    · simp only [buildAssetMapGo]
      rw [if_neg (by simp [hid, hfiles])]
      rw [buildAssetMapGo_skip root rest _ n.id hnd'.1]
      unfold lookupAmap
      rw [List.find?_cons_of_pos _ (by simp)]
      rfl
    · have hne : ¬ m.id = n.id := by
        intro he
        exact hnd'.1 (he ▸ List.mem_map_of_mem ManNode.id hmem)
      simp only [buildAssetMapGo]
      by_cases hc : (decide (m.id = "") || m.files.isEmpty) = true
      · rw [if_pos hc]
        exact ih acc n hnd'.2 hmem hid hfiles
      · rw [if_neg hc]
        exact ih _ n hnd'.2 hmem hid hfiles

theorem uploadToNotion_events (env : MigEnv) (st : MSt) (p : String) :
    ∃ newEvs, (uploadToNotion env st p).2.uevents = st.uevents ++ newEvs
      ∧ newEvs.length ≤ 2 ∧ ∀ e ∈ newEvs, e.upath = p := by
  unfold uploadToNotion
  rcases hl : lookupCache st.cache p with _ | uid
  · rcases hs : env.usize p with _ | sz
    · exact ⟨[], by simp, by simp, by simp⟩
    · dsimp only
      by_cases hb : env.maxBytes < sz
      · rw [if_pos hb]; exact ⟨[], by simp, by simp, by simp⟩
      · rw [if_neg hb]
        rcases hc : env.ucreate st.t p with _ | u2
        · refine ⟨[UEvent.ucreate p], by simp, by simp, ?_⟩
          intro e he
          obtain rfl : e = UEvent.ucreate p := List.mem_singleton.mp he
          rfl
        · dsimp only
          by_cases hsend : env.usend (st.t + 1) p = true
          · rw [if_pos hsend]
            refine ⟨[UEvent.ucreate p, UEvent.usend p], by simp, by simp, ?_⟩
            intro e he
            rcases List.mem_cons.mp he with rfl | he
            · rfl
            · obtain rfl : e = UEvent.usend p := List.mem_singleton.mp he
              rfl
          · rw [if_neg hsend]
            refine ⟨[UEvent.ucreate p, UEvent.usend p], by simp, by simp, ?_⟩
            intro e he
            rcases List.mem_cons.mp he with rfl | he
            · rfl
            · obtain rfl : e = UEvent.usend p := List.mem_singleton.mp he
              rfl
  · exact ⟨[], by simp, by simp, by simp⟩

theorem nodeToBlockPayload_events (env : MigEnv) (st : MSt) (n : SNode) :
    ∃ newEvs, (nodeToBlockPayload env st n).2.uevents = st.uevents ++ newEvs
      ∧ newEvs.length ≤ 2
      ∧ ∀ e ∈ newEvs, (firstAsset env.amap n.id).localPath = some e.upath := by
  unfold nodeToBlockPayload
  by_cases hmem : n.btype ∈ assetTypes
  · rw [if_pos hmem]
    dsimp only
    rcases hlp : (firstAsset env.amap n.id).localPath with _ | lp
    · exact ⟨[], by simp, by simp, by simp⟩
    · obtain ⟨newEvs, h1, h2, h3⟩ := uploadToNotion_events env st lp
      refine ⟨newEvs, h1, h2, ?_⟩
      intro e he
      rw [h3 e he]
  · rw [if_neg hmem]
    exact ⟨[], by simp, by simp, by simp⟩

theorem uploadToNotion_env_agnostic (envA envB : MigEnv) (st : MSt) (p : String)
    (h1 : envA.usize = envB.usize) (h2 : envA.maxBytes = envB.maxBytes)
    (h3 : envA.ucreate = envB.ucreate) (h4 : envA.usend = envB.usend) :
    uploadToNotion envA st p = uploadToNotion envB st p := by
  unfold uploadToNotion
  rw [h1, h2, h3, h4]

/-- C10: the asset map holds, per node id, the ordered list of every
file record of that manifest node (resolved against the dump root), but
payload conversion consults only the first record of that list: the
produced payload and state are identical whether the extra records are
present or not, and the upload calls a conversion makes (at most two:
create and send) all reference the local path of the first record —
additional records are never uploaded and never referenced. -/
theorem asset_map_first_record_only :
    (∀ (dumpRoot : String) (nodes : List ManNode) (n : ManNode),
      (nodes.map ManNode.id).Nodup → n ∈ nodes → ¬ n.id = "" → ¬ n.files.isEmpty = true →
      lookupAmap (buildAssetMap dumpRoot nodes) n.id
        = some (n.files.map (toAssetInfo dumpRoot)))
    ∧ (∀ (env : MigEnv) (st : MSt) (n : SNode) (r : AssetInfo) (rest : List AssetInfo),
      nodeToBlockPayload
          { env with amap := fun k => if k = n.id then some (r :: rest) else env.amap k } st n
        = nodeToBlockPayload
          { env with amap := fun k => if k = n.id then some [r] else env.amap k } st n)
    ∧ (∀ (env : MigEnv) (st : MSt) (n : SNode),
      ∃ newEvs, (nodeToBlockPayload env st n).2.uevents = st.uevents ++ newEvs
        ∧ newEvs.length ≤ 2
        ∧ ∀ e ∈ newEvs, (firstAsset env.amap n.id).localPath = some e.upath) := by
  refine ⟨?_, ?_, nodeToBlockPayload_events⟩
  · intro root nodes n hnd hmem hid hfiles
    exact buildAssetMapGo_mem root nodes [] n hnd hmem hid hfiles
  · intro env st n r rest
    unfold nodeToBlockPayload
    by_cases hmem : n.btype ∈ assetTypes
    · rw [if_pos hmem, if_pos hmem]
      have hfa : firstAsset
          ({ env with amap := fun k => if k = n.id then some (r :: rest) else env.amap k } : MigEnv).amap
          n.id = r := by
        simp [firstAsset]
      have hfb : firstAsset
          ({ env with amap := fun k => if k = n.id then some [r] else env.amap k } : MigEnv).amap
          n.id = r := by
        simp [firstAsset]
      rw [hfa, hfb]
      dsimp only
      rcases hlp : r.localPath with _ | lp
      · rfl
      · dsimp only
        rw [uploadToNotion_env_agnostic
          { env with amap := fun k => if k = n.id then some (r :: rest) else env.amap k }
          { env with amap := fun k => if k = n.id then some [r] else env.amap k }
          st lp rfl rfl rfl rfl]
    · rw [if_neg hmem, if_neg hmem]

theorem asset_map_first_record_only_witness :
    (w10nodes.map ManNode.id).Nodup
    ∧ (⟨"n1", "image", false, [w10fileA, w10fileB]⟩ : ManNode) ∈ w10nodes
    ∧ lookupAmap (buildAssetMap "root" w10nodes) "n1"
        = some ([w10fileA, w10fileB].map (toAssetInfo "root"))
    ∧ nodeToBlockPayload { wFailEnv with
          amap := fun k => if k = wC8img.id then some (⟨none, "", some "o"⟩ :: [⟨some "z", "z", some "z"⟩]) else wFailEnv.amap k } wM0 wC8img
      = nodeToBlockPayload { wFailEnv with
          amap := fun k => if k = wC8img.id then some [⟨none, "", some "o"⟩] else wFailEnv.amap k } wM0 wC8img
    ∧ (∃ newEvs, (nodeToBlockPayload wC8fEnv wM0 wC8img).2.uevents = wM0.uevents ++ newEvs
        ∧ newEvs.length ≤ 2
        ∧ ∀ e ∈ newEvs, (firstAsset wC8fEnv.amap wC8img.id).localPath = some e.upath) := by
  refine ⟨by decide, by decide, ?_, ?_, ?_⟩
  · exact asset_map_first_record_only.1 "root" w10nodes
      ⟨"n1", "image", false, [w10fileA, w10fileB]⟩ (by decide) (by decide) (by decide) (by decide)
  · exact asset_map_first_record_only.2.1 wFailEnv wM0 wC8img
      ⟨none, "", some "o"⟩ [⟨some "z", "z", some "z"⟩]
  · exact asset_map_first_record_only.2.2 wC8fEnv wM0 wC8img
